import Mathlib

/-!
Verification of the audio preprocessing, chunked transcription and two-stage
editing pipeline of the `obsidian_plugin_audio2note` repository.

The TypeScript services are shallowly embedded: sample buffers become
`List ℚ` (32-bit float samples modelled as rationals, exact for the
comparisons and scalings the code performs), byte buffers become `List ℕ`,
fallible code returns `Except`, and the cooperative concurrency pool is
modelled as a small-step scheduler driven by an explicit schedule.
-/

/-! ## SilenceSegmenter: Trim
Embeds `TranscriberService.trimSilence` (src/unnamed/part_000, lines
1376-1408; the worker copy at lines 1235-1267 is textually identical).
The source makes two passes (one to count kept samples, one to copy); the
embedding builds the same output in one pass with an explicit accumulator:
`pending` holds the current run of silent samples not yet flushed, and a
non-silent sample flushes the pending run (kept only when
`0 < silentCount && silentCount < minSilenceTrimSamples`) followed by
itself.  When the input ends the pending run is discarded, exactly as the
source never copies a trailing silent run. -/

def trimGo (minTrim : ℕ) (θ : ℚ) : List ℚ → List ℚ → List ℚ → List ℚ
  | acc, _pending, [] => acc
  | acc, pending, x :: xs =>
    if |x| ≤ θ then
      trimGo minTrim θ acc (pending ++ [x]) xs
    else
      trimGo minTrim θ
        (acc ++ (if 0 < pending.length ∧ pending.length < minTrim then pending else []) ++ [x])
        [] xs

/-- Embeds `TranscriberService.trimSilence(rawData, minSilenceTrimSamples, silenceThreshold)`. -/
def trimSilence (rawData : List ℚ) (minSilenceTrimSamples : ℕ) (silenceThreshold : ℚ) : List ℚ :=
  trimGo minSilenceTrimSamples silenceThreshold [] [] rawData

/-- Modelled from the spec (amended after the trailing-run counterexample):
scanning left to right, a maximal silent run that is followed by a
non-silent sample is kept in full when strictly shorter than
`minTrim` and dropped entirely otherwise; non-silent samples are always
kept; a trailing silent run (one not followed by any non-silent sample) is
always dropped, whatever its length. -/
def specTrim (minTrim : ℕ) (θ : ℚ) (xs : List ℚ) : List ℚ :=
  match h : xs.dropWhile (fun x => decide (|x| ≤ θ)) with
  | [] => []
  | x :: rest =>
    (if (xs.takeWhile (fun x => decide (|x| ≤ θ))).length < minTrim then
       xs.takeWhile (fun x => decide (|x| ≤ θ))
     else []) ++ x :: specTrim minTrim θ rest
termination_by xs.length
decreasing_by
  have hle : (xs.dropWhile (fun x => decide (|x| ≤ θ))).length ≤ xs.length :=
    (List.dropWhile_sublist _).length_le
  rw [h] at hle
  simp at hle
  omega

/-! ## SilenceSegmenter: Split
Embeds `TranscriberService.findSilenceSplitPoint` (src/unnamed/part_000,
lines 1410-1442) and `TranscriberService.splitAtSilenceToWav` (lines
1444-1485; the worker copies are textually identical).  The two search
loops become `find?` over the candidate indices in the same order the
loops visit them; `data[j]` is modelled as `data.getD j 0` (every read the
split loop performs is in bounds, and an out-of-bounds JS read compares as
silent, which `getD j 0` also does for a non-negative threshold).  The
split loop of the source emits the WAV encoding of each surviving
`subarray(startSample, endSample)`; here the segment sample ranges
themselves are collected, and the WAV encoding is verified separately. -/

def isBackWindowSilent (data : List ℚ) (θ : ℚ) (W i : ℕ) : Bool :=
  (List.range' (i - W) W).all fun j => decide (|data.getD j 0| ≤ θ)

def isFwdWindowSilent (data : List ℚ) (θ : ℚ) (W total i : ℕ) : Bool :=
  (List.range' i (min (i + W) total - i)).all fun j => decide (|data.getD j 0| ≤ θ)

def findSilenceSplitPoint (data : List ℚ) (desiredSplit totalSamples W R : ℕ) (θ : ℚ) :
    Option ℕ :=
  match (List.range' (max W (desiredSplit - R))
      (desiredSplit + 1 - max W (desiredSplit - R))).reverse.find?
      (isBackWindowSilent data θ W) with
  | some i => some (i - W)
  | none =>
    (List.range' desiredSplit (min totalSamples (desiredSplit + R) - desiredSplit)).find?
      (isFwdWindowSilent data θ W totalSamples)

/-- One iteration of the split loop: the chosen end of the window starting
at `startSample` (the naive end, replaced by a found split point when the
naive end is interior and the split point lies beyond `startSample`). -/
def chooseEnd (data : List ℚ) (maxSamples W R : ℕ) (θ : ℚ) (startSample : ℕ) : ℕ :=
  if min (startSample + maxSamples) data.length < data.length then
    match findSilenceSplitPoint data (min (startSample + maxSamples) data.length)
        data.length W R θ with
    | some sp => if startSample < sp then sp else min (startSample + maxSamples) data.length
    | none => min (startSample + maxSamples) data.length
  else min (startSample + maxSamples) data.length

/-- The split loop.  The source never calls it with `maxSamples = 0` (it
would not terminate there); the guard returns `[]` in that degenerate
case to keep the recursion well founded. -/
def splitLoop (data : List ℚ) (maxSamples minChunkSamples W R : ℕ) (θ : ℚ)
    (startSample : ℕ) : List (List ℚ) :=
  if h : startSample < data.length ∧ 0 < maxSamples then
    (if minChunkSamples ≤ chooseEnd data maxSamples W R θ startSample - startSample then
       [(data.drop startSample).take (chooseEnd data maxSamples W R θ startSample - startSample)]
     else []) ++
      splitLoop data maxSamples minChunkSamples W R θ (chooseEnd data maxSamples W R θ startSample)
  else []
termination_by data.length - startSample
decreasing_by
  have hce : startSample < chooseEnd data maxSamples W R θ startSample := by
    have hnaive : startSample < min (startSample + maxSamples) data.length := by
      have h1 := h.1
      have h2 := h.2
      omega
    unfold chooseEnd
    split
    · split
      · split
        · assumption
        · exact hnaive
      · exact hnaive
    · exact hnaive
  omega

/-- Embeds the whole of `splitAtSilenceToWav`, with segments kept as
sample ranges. -/
def splitAtSilenceSegments (data : List ℚ) (maxSamples minChunkSamples W R : ℕ) (θ : ℚ) :
    List (List ℚ) :=
  splitLoop data maxSamples minChunkSamples W R θ 0

/-- A backward silent window candidate for the boundary `naive`: an index
`i` visited by the backward loop whose window `[i - W, i)` is entirely
silent.  The cut the claim predicts is the start `i - W` of the window. -/
def BackWin (data : List ℚ) (θ : ℚ) (W R naive : ℕ) (i : ℕ) : Prop :=
  max W (naive - R) ≤ i ∧ i ≤ naive ∧ ∀ j, i - W ≤ j → j < i → |data.getD j 0| ≤ θ

/-- A forward silent window candidate for the boundary `naive`. -/
def FwdWin (data : List ℚ) (θ : ℚ) (W R naive : ℕ) (i : ℕ) : Prop :=
  naive ≤ i ∧ i < min data.length (naive + R) ∧
    ∀ j, i ≤ j → j < min (i + W) data.length → |data.getD j 0| ≤ θ

/-! ## WaveCodec
Embeds `TranscriberService.float32ToWavBuffer` (src/unnamed/part_000,
lines 1487-1514; the worker copy is textually identical).  A `DataView`
over a fresh `ArrayBuffer` becomes a list of `44 + 2 * samples.length`
zero bytes overwritten in place; `setUint16`/`setUint32` little-endian
writes become byte-list splices; `setInt16` applies the JS `ToInt16`
conversion (truncation toward zero, then two-sum complement modulo
`2^16`) to `sample < 0 ? sample * 0x8000 : sample * 0x7fff` after the
`Math.max(-1, Math.min(1, sample))` clamp. -/

def writeBytes (buf : List ℕ) (off : ℕ) (bs : List ℕ) : List ℕ :=
  buf.take off ++ bs.take (buf.length - off) ++ buf.drop (off + bs.length)

def u16le (v : ℕ) : List ℕ := [v % 256, v / 256 % 256]

def u32le (v : ℕ) : List ℕ := [v % 256, v / 256 % 256, v / 65536 % 256, v / 16777216 % 256]

def strBytes (s : String) : List ℕ := s.data.map Char.toNat

/-- Truncation toward zero, as the JS abstract `ToIntegerOrInfinity`
performs on a finite number. -/
def ratTrunc (q : ℚ) : ℤ := if q < 0 then -((-q).floor) else q.floor

def clamp01 (s : ℚ) : ℚ := max (-1) (min 1 s)

/-- The value stored for one sample: clamp to `[-1, 1]`, scale negatives
by `0x8000` and non-negatives by `0x7fff`, truncate. -/
def sampleToI16 (s : ℚ) : ℤ :=
  if clamp01 s < 0 then ratTrunc (clamp01 s * 32768) else ratTrunc (clamp01 s * 32767)

/-- Little-endian bytes of a 16-bit store of `v` (two-sum complement
modulo `2^16`, as `DataView.setInt16` performs). -/
def i16le (v : ℤ) : List ℕ := [(v % 65536).toNat % 256, (v % 65536).toNat / 256]

def writeSamples : List ℕ → ℕ → List ℚ → List ℕ
  | buf, _, [] => buf
  | buf, off, s :: rest =>
    writeSamples (writeBytes buf off (i16le (sampleToI16 s))) (off + 2) rest

def float32ToWavBuffer (samples : List ℚ) (sampleRate : ℕ) : List ℕ :=
  let dataSize := samples.length * 2
  let b := List.replicate (44 + dataSize) 0
  let b := writeBytes b 0 (strBytes ("RIFF"))
  let b := writeBytes b 4 (u32le (36 + dataSize))
  let b := writeBytes b 8 (strBytes ("WAVE"))
  let b := writeBytes b 12 (strBytes ("fmt "))
  let b := writeBytes b 16 (u32le 16)
  let b := writeBytes b 20 (u16le 1)
  let b := writeBytes b 22 (u16le 1)
  let b := writeBytes b 24 (u32le sampleRate)
  let b := writeBytes b 28 (u32le (sampleRate * 2))
  let b := writeBytes b 32 (u16le 2)
  let b := writeBytes b 34 (u16le 16)
  let b := writeBytes b 36 (strBytes ("data"))
  let b := writeBytes b 40 (u32le dataSize)
  writeSamples b 44 samples

/-- Modelled from the spec: the declared header — RIFF/WAVE container,
16-byte `fmt ` section with PCM format 1, channel count 1, the given
sample rate, byte rate `sampleRate * 2`, block align 2, bit depth 16, and
a `data` section of exactly 2 bytes per sample. -/
def wavHeaderBytes (numSamples sampleRate : ℕ) : List ℕ :=
  strBytes ("RIFF") ++ u32le (36 + numSamples * 2) ++ strBytes ("WAVE") ++ strBytes ("fmt ")
    ++ u32le 16 ++ u16le 1 ++ u16le 1 ++ u32le sampleRate ++ u32le (sampleRate * 2)
    ++ u16le 2 ++ u16le 16 ++ strBytes ("data") ++ u32le (numSamples * 2)

/-- Modelled from the spec: the payload is the little-endian 16-bit
stores of the clamped and scaled samples, in order. -/
def wavPayload (samples : List ℚ) : List ℕ :=
  (samples.map fun s => i16le (sampleToI16 s)).flatten

/-! ## TranscriptionOrchestrator: bounded concurrency pool
Embeds `TranscriberService.mapWithConcurrency` (src/unnamed/part_000,
lines 666-708) as a small-step scheduler.  Each runner of the source is a
worker; the schedule lists which worker advances at each cooperative
suspension point.  A scheduled step performs, atomically (as the
single-threaded source does between awaits): for an idle worker, the
loop-top `throwIfAborted` (dying without recording an error when the
local controller has aborted) and otherwise `nextIndex++` claiming
(`take`), or a return when the items are exhausted (`finished`); for a
busy worker, the settlement of its awaited `worker(item, index)` call —
`results[index] = value` on success (`done`), or the catch block on
failure (`fail`): the first error is recorded and the local controller
aborted, and the runner rethrows (`dead`).  The external signal is not
modelled (the claims settled here concern runs without an external
cancellation), so the merged signal is the local controller alone; the
function resolves with `results` when no error was recorded and rejects
with `firstError` otherwise. -/

inductive WStat where
  | idle : WStat
  | busy : ℕ → WStat
  | finished : WStat
  | dead : WStat
deriving DecidableEq

inductive PEvent (ε : Type) where
  | take : ℕ → PEvent ε
  | done : ℕ → PEvent ε
  | fail : ℕ → ε → PEvent ε
deriving DecidableEq

structure Pool (ε α : Type) where
  nextIndex : ℕ
  results : List (Option α)
  firstError : Option ε
  aborted : Bool
  workers : List WStat
deriving DecidableEq

def poolStep {ε α : Type} (f : ℕ → Except ε α) (n : ℕ) (s : Pool ε α) (w : ℕ) :
    Pool ε α × List (PEvent ε) :=
  match s.workers.getD w WStat.dead with
  | WStat.idle =>
    if s.aborted then
      ({ s with workers := s.workers.set w WStat.dead }, [])
    else if s.nextIndex < n then
      ({ s with nextIndex := s.nextIndex + 1,
                workers := s.workers.set w (WStat.busy s.nextIndex) },
       [PEvent.take s.nextIndex])
    else
      ({ s with workers := s.workers.set w WStat.finished }, [])
  | WStat.busy i =>
    match f i with
    | Except.ok a =>
      ({ s with results := s.results.set i (some a),
                workers := s.workers.set w WStat.idle },
       [PEvent.done i])
    | Except.error e =>
      (if s.firstError.isNone then
         { s with firstError := some e, aborted := true,
                  workers := s.workers.set w WStat.dead }
       else
         { s with workers := s.workers.set w WStat.dead },
       [PEvent.fail i e])
  | WStat.finished => (s, [])
  | WStat.dead => (s, [])

def poolRun {ε α : Type} (f : ℕ → Except ε α) (n : ℕ) :
    List ℕ → Pool ε α → Pool ε α × List (PEvent ε)
  | [], s => (s, [])
  | w :: ws, s =>
    ((poolRun f n ws (poolStep f n s w).1).1,
     (poolStep f n s w).2 ++ (poolRun f n ws (poolStep f n s w).1).2)

def initPool (ε α : Type) (numWorkers n : ℕ) : Pool ε α :=
  ⟨0, List.replicate n none, none, false, List.replicate numWorkers WStat.idle⟩

def poolOutcome {ε α : Type} (s : Pool ε α) : Except ε (List (Option α)) :=
  match s.firstError with
  | some e => Except.error e
  | none => Except.ok s.results

def mapWithConcurrencyModel {ε α : Type} (f : ℕ → Except ε α) (concurrency n : ℕ)
    (sched : List ℕ) : Except ε (List (Option α)) × List (PEvent ε) :=
  if n = 0 then (Except.ok [], [])
  else
    (poolOutcome (poolRun f n sched (initPool ε α (max 1 (min concurrency n)) n)).1,
     (poolRun f n sched (initPool ε α (max 1 (min concurrency n)) n)).2)

/-- JS `String.prototype.trim` on the ASCII whitespace the pipeline
produces. -/
def isJsWhitespace (c : Char) : Bool :=
  c == ' ' || c == '\t' || c == '\n' || c == '\r' || c == '\x0b' || c == '\x0c'

def jsTrim (s : String) : String :=
  String.mk (((s.data.dropWhile isJsWhitespace).reverse.dropWhile isJsWhitespace).reverse)

/-- Tail of `transcribeWithOpenAI` (src/unnamed/part_000, lines 780-837):
`results.join(chr 10).trim()` after the pool resolves. -/
def transcribeWithOpenAIPool (f : ℕ → Except String String) (c n : ℕ) (sched : List ℕ) :
    Except String String :=
  match (mapWithConcurrencyModel f c n sched).1 with
  | Except.error e => Except.error e
  | Except.ok rs =>
    Except.ok (jsTrim (String.intercalate ("\n") (rs.map fun o => o.getD "")))

/-- Invariant carried through a failure-free run: no abort, no recorded
error, bounded `nextIndex`, every written result is the value of its own
index, every claimed index is written or still held by a busy worker, and
a finished worker certifies that all indices were claimed. -/
def PoolInv {ε α : Type} (g : ℕ → α) (n : ℕ) (s : Pool ε α) : Prop :=
  s.results.length = n ∧
  s.aborted = false ∧
  s.firstError = none ∧
  s.nextIndex ≤ n ∧
  (∀ j a, s.results.getD j none = some a → a = g j) ∧
  (∀ j, j < s.nextIndex → (s.results.getD j none).isSome
      ∨ ∃ w, s.workers.getD w WStat.dead = WStat.busy j) ∧
  (∀ w i, s.workers.getD w WStat.dead = WStat.busy i → i < s.nextIndex) ∧
  (∀ w, s.workers.getD w WStat.dead = WStat.finished → n ≤ s.nextIndex)

/-- The all-success task family used to settle C6. -/
def okTask (g : ℕ → String) : ℕ → Except String String := fun i => Except.ok (g i)

/-- First error among the `fail` events of a trace — the value
`firstError` holds after a run, since the catch block records only the
first rejection. -/
def firstFailErr {ε : Type} : List (PEvent ε) → Option ε
  | [] => none
  | PEvent.fail _ e :: _ => some e
  | _ :: evs => firstFailErr evs

def combineFE {ε : Type} (a b : Option ε) : Option ε :=
  match a with
  | some e => some e
  | none => b

/-! ## EditingPipeline
Embeds `EditorService` (src/obsidian-ai-transcriber/src/services/editor.ts).
Errors become `JsErr`, whose `aborted` flag abstracts the source's
`isAbortError` check (name `AbortError` or a message containing
`aborted`).  The remote model is abstracted by two environment oracles:
`streamNet prompt temperature` is the accumulated text of one streaming
call (`generateContentStream` throws a non-abort error itself when the
accumulated text is empty), and `genNet prompt temperature attempt` is
the outcome of the `attempt`-th non-streaming request inside
`generateContent`, whose three-attempt retry loop is embedded.  The
OpenAI/Gemini provider branches differ only in which remote API the
oracle stands for.  The abort signal is a fixed boolean (the claims
settled here use a signal that is aborted from the start or never);
`onProgress`/`onPartialText` callbacks do not affect the returned value
and are not modelled.  Each function also returns the list of network
calls it performed. -/

structure JsErr where
  aborted : Bool
  msg : String
deriving DecidableEq

def abortErr : JsErr := ⟨true, "The operation was aborted."⟩

structure EditorSettingsM where
  apiKey : String
  systemPromptTemplates : List (String × String)
  activeSystemPromptTemplateName : String
  userPrompt : String
deriving DecidableEq

/-- Embeds `EditorService.resolveSystemPrompt`. -/
def resolveSystemPrompt (settings : EditorSettingsM) (systemPromptOverride : Option String) :
    String :=
  match systemPromptOverride with
  | some s => s
  | none =>
    if 0 < settings.systemPromptTemplates.length then
      match settings.systemPromptTemplates.find?
          (fun t => t.1 == settings.activeSystemPromptTemplateName) with
      | some t => t.2
      | none =>
        match settings.systemPromptTemplates.head? with
        | some t => t.2
        | none => ""
    else ""

/-- Consume a literal pattern at the head of the input, returning the
remainder. -/
def dropPrefixChars : List Char → List Char → Option (List Char)
  | [], cs => some cs
  | _ :: _, [] => none
  | p :: ps, c :: cs => if c = p then dropPrefixChars ps cs else none

/-- Matches the alternative `\*\*Speaker \d+:\*\*` at the head. -/
def matchSpeakerBold (cs : List Char) : Bool :=
  match dropPrefixChars ("**Speaker ").data cs with
  | none => false
  | some rest =>
    let ds := rest.takeWhile Char.isDigit
    decide (0 < ds.length) &&
      (match dropPrefixChars (":**").data (rest.drop ds.length) with
       | some _ => true
       | none => false)

/-- Matches the alternative `Speaker \d+:` at the head. -/
def matchSpeakerPlain (cs : List Char) : Bool :=
  match dropPrefixChars ("Speaker ").data cs with
  | none => false
  | some rest =>
    let ds := rest.takeWhile Char.isDigit
    decide (0 < ds.length) &&
      (match rest.drop ds.length with
       | ':' :: _ => true
       | _ => false)

def speakerMatchAt (cs : List Char) : Bool := matchSpeakerBold cs || matchSpeakerPlain cs

/-- Matches `^#\s+Video Transcription.*?\n` at a line start, returning
the number of characters consumed (the greedy `\s+` is the maximal
whitespace run, since the literal begins with a non-whitespace
character; the lazy `.*?\n` ends at the first newline). -/
def matchMetaTitle (cs : List Char) : Option ℕ :=
  match cs with
  | '#' :: rest =>
    let ws := rest.takeWhile isJsWhitespace
    if ws.length = 0 then none
    else
      match dropPrefixChars ("Video Transcription").data (rest.drop ws.length) with
      | none => none
      | some rest2 =>
        let body := rest2.takeWhile (fun c => !(c == '\n'))
        match rest2.drop body.length with
        | '\n' :: _ => some (1 + ws.length + ("Video Transcription").length + body.length + 1)
        | _ => none
  | _ => none

/-- Matches `^<literal>.*?\n` at a line start, returning the consumed
length. -/
def matchMetaLine (pat : List Char) (cs : List Char) : Option ℕ :=
  match dropPrefixChars pat cs with
  | none => none
  | some rest =>
    let body := rest.takeWhile (fun c => !(c == '\n'))
    match rest.drop body.length with
    | '\n' :: _ => some (pat.length + body.length + 1)
    | _ => none

/-- Matches `^## Transcription Content\s*\n` at a line start: the greedy
`\s*` followed by `\n` ends the match right after the last newline of
the maximal whitespace run. -/
def matchMetaContent (cs : List Char) : Option ℕ :=
  match dropPrefixChars ("## Transcription Content").data cs with
  | none => none
  | some rest =>
    let ws := rest.takeWhile isJsWhitespace
    if ws.contains '\n' then
      some (("## Transcription Content").length
        + (ws.length - (ws.reverse.takeWhile (fun c => !(c == '\n'))).length))
    else none

/-- One global multiline replace-with-empty pass: at each line start, a
match is deleted and scanning resumes after it (every matcher consumes
through a newline, so the resume point is again a line start).  All
matchers consume at least one character; the `max 1` only guards the
fuel-based recursion. -/
def stripMetaScan (matcher : List Char → Option ℕ) : ℕ → List Char → Bool → List Char
  | 0, cs, _ => cs
  | _ + 1, [], _ => []
  | fuel + 1, c :: cs, atStart =>
    if atStart then
      match matcher (c :: cs) with
      | some len => stripMetaScan matcher fuel ((c :: cs).drop (max 1 len)) true
      | none => c :: stripMetaScan matcher fuel cs (c == '\n')
    else
      c :: stripMetaScan matcher fuel cs (c == '\n')

def stripMeta (matcher : List Char → Option ℕ) (cs : List Char) : List Char :=
  stripMetaScan matcher cs.length cs true

/-- Embeds `EditorService.extractRawTranscript`: cut at the first
speaker marker when one exists, else delete the known metadata header
lines; trim either way. -/
def extractRawTranscript (text : String) : String :=
  match (List.range text.data.length).find? (fun p => speakerMatchAt (text.data.drop p)) with
  | some p => jsTrim (String.mk (text.data.drop p))
  | none =>
    jsTrim (String.mk
      (stripMeta matchMetaContent
        (stripMeta (matchMetaLine ("**Model:").data)
          (stripMeta (matchMetaLine ("**Detected Language:").data)
            (stripMeta matchMetaTitle text.data)))))

/-- Matches `###\s*\d+\.\s*完整逐字稿` at the head (each `\s*`/`\d+` is
its maximal run, since the following literal piece cannot start a run). -/
def transcriptHeaderAt (cs : List Char) : Bool :=
  match dropPrefixChars ("###").data cs with
  | none => false
  | some r1 =>
    let r2 := r1.drop (r1.takeWhile isJsWhitespace).length
    let ds := r2.takeWhile Char.isDigit
    if ds.length = 0 then false
    else
      match r2.drop ds.length with
      | '.' :: r3 =>
        (match dropPrefixChars ("完整逐字稿").data
            (r3.drop (r3.takeWhile isJsWhitespace).length) with
         | some _ => true
         | none => false)
      | _ => false

/-- The `/###\s*\d+\.\s*完整逐字稿.*$/s` replace of
`prepareSummaryPrompt`: everything from the first header match to the
end of the string is deleted. -/
def stripFullTranscriptSection (sys : String) : String :=
  match (List.range sys.data.length).find? (fun p => transcriptHeaderAt (sys.data.drop p)) with
  | some p => String.mk (sys.data.take p)
  | none => sys

/-- Embeds `EditorService.prepareSummaryPrompt`. -/
def prepareSummaryPrompt (systemPrompt userPrompt transcript : String)
    (context : Option String) : String :=
  let summaryTemplate := stripFullTranscriptSection systemPrompt
  let userPrompt2 :=
    match context with
    | some ctx =>
      if jsTrim ctx ≠ "" then
        userPrompt ++ "\n\n【用户提供的会议背景（可选）】\n" ++ jsTrim ctx
          ++ "\n【使用规则】\n- 用于帮助理解上下文\n- 若与逐字稿不一致，以逐字稿为准\n- 不得凭背景补充逐字稿未出现的事实"
      else userPrompt
    | none => userPrompt
  let summaryTemplate2 := summaryTemplate
    ++ "\n\n**重要提示**: 只生成前面的分析部分（Section 1-5或类似结构），不要输出完整逐字稿部分。"
  if userPrompt2 ≠ "" then
    summaryTemplate2 ++ "\n\n" ++ userPrompt2 ++ "\n\n【逐字稿】\n" ++ transcript
  else
    summaryTemplate2 ++ "\n\n【逐字稿】\n" ++ transcript

/-- `text.split(new RegExp of two-or-more newlines)`: cut at every
maximal newline run of length at least two. -/
def splitParagraphsGo : List Char → List Char → List String
  | acc, [] => [String.mk acc.reverse]
  | acc, '\n' :: '\n' :: rest =>
    String.mk acc.reverse ::
      splitParagraphsGo [] (rest.dropWhile (fun c => c == '\n'))
  | acc, c :: rest => splitParagraphsGo (c :: acc) rest
termination_by _ cs => cs.length
decreasing_by
  · have : (rest.dropWhile (fun c => c == '\n')).length ≤ rest.length :=
      (List.dropWhile_sublist _).length_le
    simp
    omega
  · simp

/-- `para.split(single newline)`. -/
def splitOnNl : List Char → List (List Char)
  | [] => [[]]
  | '\n' :: rest => [] :: splitOnNl rest
  | c :: rest =>
    match splitOnNl rest with
    | [] => [[c]]
    | p :: ps => (c :: p) :: ps

/-- The inner per-line step of `splitTextIntoChunks` for an oversized
paragraph. -/
def pushLine (maxLength : ℕ) (st : List String × String) (line : String) :
    List String × String :=
  let flushed :=
    if maxLength < st.2.length + line.length ∧ 0 < st.2.length
    then (st.1 ++ [jsTrim st.2], "")
    else st
  (flushed.1, flushed.2 ++ line ++ "\n")

/-- The per-paragraph step of `splitTextIntoChunks`. -/
def pushPara (maxLength : ℕ) (st : List String × String) (para : String) :
    List String × String :=
  let flushed :=
    if maxLength < st.2.length + para.length ∧ 0 < st.2.length
    then (st.1 ++ [jsTrim st.2], "")
    else st
  if maxLength < para.length then
    let stepped := ((splitOnNl para.data).map String.mk).foldl (pushLine maxLength) flushed
    (stepped.1, stepped.2 ++ "\n")
  else
    (flushed.1, flushed.2 ++ para ++ "\n\n")

/-- Embeds `EditorService.splitTextIntoChunks`. -/
def splitTextIntoChunks (text : String) (maxLength : ℕ) : List String :=
  let final := (splitParagraphsGo [] text.data).foldl (pushPara maxLength) ([], "")
  if jsTrim final.2 ≠ "" then final.1 ++ [jsTrim final.2] else final.1

/-- Embeds `EditorService.buildFormatPrompt`. -/
def buildFormatPrompt (chunk : String) (chunkIndex totalChunks : ℕ) : String :=
  "You are a professional transcript formatter. Your task is to clean up and format the following transcript segment while preserving ALL content.\n\n**CRITICAL REQUIREMENTS:**\n1. **Preserve ALL content** - Do NOT truncate, summarize, or omit any part. This is segment "
    ++ toString chunkIndex ++ " of " ++ toString totalChunks
    ++ ".\n2. **Language handling:**\n   - If original is primarily English, keep it English\n   - If original is primarily Chinese, convert to Simplified Chinese\n   - Other languages: translate to Simplified Chinese\n3. **Clean up:**\n   - Remove filler words (um, uh, ah, er, hmm)\n   - Fix obvious typos\n4. **Speaker markers:**\n   - Keep all Speaker markers exactly as they appear (Speaker 1:, Speaker 2:, etc.)\n   - Do NOT attempt to replace them with names\n5. **Format:**\n   - Output ONLY the clean transcript text.\n   - Do NOT add headers, footers, or explanatory notes.\n\n**Transcript Segment:**\n"
    ++ chunk

/-- Embeds `EditorService.combineParts`. -/
def combineParts (summary formattedTranscript : String) : String :=
  if jsTrim formattedTranscript = "" then jsTrim summary
  else jsTrim summary ++ "\n\n---\n\n### 完整逐字稿 (Detailed Transcript)\n\n"
    ++ jsTrim formattedTranscript

/-- Embeds `EditorService.generateContentStream` against the stream
oracle; the accumulated result must be non-empty. -/
def generateContentStreamM (streamNet : String → ℚ → Except JsErr String)
    (prompt : String) (temperature : ℚ) (sigAborted : Bool) :
    Except JsErr String × List String :=
  if sigAborted then (Except.error abortErr, [])
  else
    match streamNet prompt temperature with
    | Except.error e => (Except.error e, ["stream"])
    | Except.ok r =>
      (if r = "" then Except.error ⟨false, "streaming response contained no text."⟩
       else Except.ok r, ["stream"])

/-- The attempt loop of `EditorService.generateContent` (three attempts,
abort errors rethrown immediately, aggregate error afterwards). -/
def gcAttempts (net : String → ℚ → ℕ → Except JsErr String) (prompt : String)
    (temperature : ℚ) (sigAborted : Bool) : ℕ → ℕ → Option JsErr →
    Except JsErr String × List String
  | _, 0, last =>
    (Except.error ⟨false, "API request failed after 3 attempts. Last error: "
        ++ (match last with | some e => e.msg | none => "Unknown error")⟩, [])
  | attempt, fuel + 1, _last =>
    if sigAborted then (Except.error abortErr, [])
    else
      match net prompt temperature attempt with
      | Except.ok r => (Except.ok r, ["generate"])
      | Except.error e =>
        if e.aborted then (Except.error e, ["generate"])
        else
          ((gcAttempts net prompt temperature sigAborted (attempt + 1) fuel (some e)).1,
           "generate" :: (gcAttempts net prompt temperature sigAborted (attempt + 1) fuel (some e)).2)

def generateContentM (net : String → ℚ → ℕ → Except JsErr String) (prompt : String)
    (temperature : ℚ) (sigAborted : Bool) : Except JsErr String × List String :=
  gcAttempts net prompt temperature sigAborted 1 3 none

/-- One chunk of Stage 2: streamed call, non-streaming fallback, raw
chunk text as last resort; abort errors escape. -/
def chunkTierResult (streamNet : String → ℚ → Except JsErr String)
    (genNet : String → ℚ → ℕ → Except JsErr String)
    (prompt chunkText : String) (sigAborted : Bool) :
    Except JsErr String × List String :=
  match generateContentStreamM streamNet prompt (1/10) sigAborted with
  | (Except.ok t, tr) => (Except.ok t, tr)
  | (Except.error e, tr) =>
    if e.aborted then (Except.error e, tr)
    else
      match generateContentM genNet prompt (1/10) sigAborted with
      | (Except.ok t, tr2) => (Except.ok t, tr ++ tr2)
      | (Except.error e2, tr2) =>
        if e2.aborted then (Except.error e2, tr ++ tr2)
        else (Except.ok chunkText, tr ++ tr2)

def formatChunksGo (streamNet : String → ℚ → Except JsErr String)
    (genNet : String → ℚ → ℕ → Except JsErr String) (total : ℕ) (sigAborted : Bool) :
    List String → ℕ → Except JsErr (List String) × List String
  | [], _ => (Except.ok [], [])
  | c :: rest, i =>
    if sigAborted then (Except.error abortErr, [])
    else
      match chunkTierResult streamNet genNet (buildFormatPrompt c (i + 1) total) c sigAborted with
      | (Except.error e, tr) => (Except.error e, tr)
      | (Except.ok t, tr) =>
        match formatChunksGo streamNet genNet total sigAborted rest (i + 1) with
        | (Except.ok ts, tr2) => (Except.ok (jsTrim t :: ts), tr ++ tr2)
        | (Except.error e, tr2) => (Except.error e, tr ++ tr2)

/-- Embeds `EditorService.formatTranscriptStreaming` (the summary part
and the partial-output callbacks do not affect the returned text). -/
def formatTranscriptStreamingM (streamNet : String → ℚ → Except JsErr String)
    (genNet : String → ℚ → ℕ → Except JsErr String) (rawTranscript : String)
    (sigAborted : Bool) : Except JsErr String × List String :=
  match formatChunksGo streamNet genNet (splitTextIntoChunks rawTranscript 8000).length
      sigAborted (splitTextIntoChunks rawTranscript 8000) 0 with
  | (Except.ok rs, tr) => (Except.ok (jsTrim (String.intercalate ("\n\n") rs)), tr)
  | (Except.error e, tr) => (Except.error e, tr)

/-- Embeds `EditorService.editWithTwoStageStreaming`. -/
def editWithTwoStageStreamingM (streamNet : String → ℚ → Except JsErr String)
    (genNet : String → ℚ → ℕ → Except JsErr String) (text : String)
    (settings : EditorSettingsM) (systemPromptOverride : Option String)
    (context : Option String) (sigAborted : Bool) :
    Except JsErr String × List String :=
  if settings.apiKey = "" then (Except.error ⟨false, "Editor API key is not configured"⟩, [])
  else if sigAborted then (Except.error abortErr, [])
  else
    match
      (match generateContentStreamM streamNet
          (prepareSummaryPrompt (resolveSystemPrompt settings systemPromptOverride)
            settings.userPrompt (extractRawTranscript text) context) (1/5) sigAborted with
       | (Except.ok s, tr) => (Except.ok s, tr)
       | (Except.error e, tr) =>
         if e.aborted then (Except.error e, tr)
         else
           match generateContentM genNet
               (prepareSummaryPrompt (resolveSystemPrompt settings systemPromptOverride)
                 settings.userPrompt (extractRawTranscript text) context) (1/5) sigAborted with
           | (r, tr2) => (r, tr ++ tr2)) with
    | (Except.error e, tr) => (Except.error e, tr)
    | (Except.ok summaryPart, tr) =>
      if sigAborted then (Except.error abortErr, tr)
      else
        match formatTranscriptStreamingM streamNet genNet (extractRawTranscript text)
            sigAborted with
        | (Except.error e, tr2) => (Except.error e, tr ++ tr2)
        | (Except.ok transcriptPart, tr2) =>
          (Except.ok (combineParts summaryPart transcriptPart), tr ++ tr2)

/-- The text Stage 2 ends up storing for one chunk (streamed result,
else fallback result, else the raw chunk), trimmed as the push does. -/
def chunkTierText (streamNet : String → ℚ → Except JsErr String)
    (genNet : String → ℚ → ℕ → Except JsErr String) (prompt fb : String) : String :=
  match (chunkTierResult streamNet genNet prompt fb false).1 with
  | Except.ok t => jsTrim t
  | Except.error _ => ""

def chunkTexts (streamNet : String → ℚ → Except JsErr String)
    (genNet : String → ℚ → ℕ → Except JsErr String) (total : ℕ) :
    List String → ℕ → List String
  | [], _ => []
  | c :: rest, i =>
    chunkTierText streamNet genNet (buildFormatPrompt c (i + 1) total) c
      :: chunkTexts streamNet genNet total rest (i + 1)

/-- The chunk list Stage 2 formats. -/
def stage2Chunks (text : String) : List String :=
  splitTextIntoChunks (extractRawTranscript text) 8000

/-- The per-chunk texts Stage 2 assembles, in original order. -/
def stage2Texts (streamNet : String → ℚ → Except JsErr String)
    (genNet : String → ℚ → ℕ → Except JsErr String) (text : String) : List String :=
  chunkTexts streamNet genNet (stage2Chunks text).length (stage2Chunks text) 0

/-- Stream oracle for the C8 witness: fails (non-abort) exactly on the
chunk-format prompts, which are the only prompts opening with the
format-prompt preamble. -/
def c8wStream (p : String) ( _t : ℚ) : Except JsErr String :=
  match dropPrefixChars ("You are").data p.data with
  | some _ => Except.error ⟨false, "s"⟩
  | none => Except.ok ("SUM")

/-- Generate oracle for the C8 witness: always fails, non-abort. -/
def c8wGen ( _p : String) ( _t : ℚ) ( _a : ℕ) : Except JsErr String :=
  Except.error ⟨false, "g"⟩

def c8wSettings : EditorSettingsM := ⟨"k", [], "", ""⟩

structure TrSettingsM where
  provider : String
  apiKey : String
  preferQualityWav : Bool
deriving DecidableEq

structure BlobM where
  size : ℕ
  type : String
deriving DecidableEq

def DIRECT_GEMINI_UPLOAD_MAX_BYTES : ℕ := 20 * 1024 * 1024

/-- Tail of `transcribeWithOpenAI` (src/unnamed/part_000, lines 761-838)
with the preprocess output as an explicit parameter and the per-chunk
network transcription call as the oracle `f`; the second component is
the pool event trace, empty when the early return for an empty chunk
list fires before the pool is ever built. -/
def transcribeWithOpenAIM (f : ℕ → Except JsErr String)
    (preprocessResult : List BlobM) (sched : List ℕ) :
    Except JsErr String × List (PEvent JsErr) :=
  if preprocessResult.length = 0 then (Except.ok (""), [])
  else
    match mapWithConcurrencyModel f 3 preprocessResult.length sched with
    | (Except.error e, tr) => (Except.error e, tr)
    | (Except.ok rs, tr) =>
      (Except.ok (jsTrim (String.intercalate ("\n") (rs.map fun o => o.getD ""))), tr)

/-- Embeds `transcribeWithGemini` (src/unnamed/part_000, lines 840-1005):
the WAV preprocess is forced by the quality preference or by a blob
larger than the direct-upload limit, otherwise the blob itself is the
single chunk; the per-chunk upload-and-transcribe call is the oracle
`f`. -/
def transcribeWithGeminiM (f : ℕ → Except JsErr String) (blob : BlobM)
    (settings : TrSettingsM) (preprocessForGeminiResult : List BlobM) (sched : List ℕ) :
    Except JsErr String × List (PEvent JsErr) :=
  let forceWavPreprocess :=
    settings.preferQualityWav || decide (DIRECT_GEMINI_UPLOAD_MAX_BYTES < blob.size)
  let chunks := if forceWavPreprocess then preprocessForGeminiResult else [blob]
  if chunks.length = 0 then (Except.ok (""), [])
  else
    match mapWithConcurrencyModel f 2 chunks.length sched with
    | (Except.error e, tr) => (Except.error e, tr)
    | (Except.ok rs, tr) =>
      (Except.ok (jsTrim (String.intercalate ("\n") (rs.map fun o => o.getD ""))), tr)

/-- Embeds `transcribe` (src/unnamed/part_000, lines 550-596): missing
key rejects, then `throwIfAborted` rejects with the abort error, then
the provider dispatch runs; an unknown provider rejects. -/
def transcribeM (f : ℕ → Except JsErr String) (blob : BlobM) (settings : TrSettingsM)
    (sigAborted : Bool) (preprocessResult preprocessForGeminiResult : List BlobM)
    (sched : List ℕ) : Except JsErr String × List (PEvent JsErr) :=
  if settings.apiKey = "" then
    (Except.error ⟨false, "Transcriber API key is not configured"⟩, [])
  else if sigAborted then (Except.error abortErr, [])
  else if settings.provider = "openai" then transcribeWithOpenAIM f preprocessResult sched
  else if settings.provider = "gemini" then
    transcribeWithGeminiM f blob settings preprocessForGeminiResult sched
  else (Except.error ⟨false, "Unsupported transcription provider: " ++ settings.provider⟩, [])

lemma trimGo_acc (minTrim : ℕ) (θ : ℚ) (xs : List ℚ) :
    ∀ acc pending, trimGo minTrim θ acc pending xs = acc ++ trimGo minTrim θ [] pending xs := by
  induction xs with
  | nil => intro acc pending; simp [trimGo]
  | cons x xs ih =>
    intro acc pending
    by_cases hx : |x| ≤ θ
    · simp only [trimGo, if_pos hx]
      rw [ih, ih []]
    · simp only [trimGo, if_neg hx, List.nil_append]
      rw [ih (acc ++ (if 0 < pending.length ∧ pending.length < minTrim then pending else []) ++ [x]) [],
          ih ((if 0 < pending.length ∧ pending.length < minTrim then pending else []) ++ [x]) []]
      simp

lemma takeWhile_all_append (p : ℚ → Bool) (l₁ l₂ : List ℚ) (h : ∀ a ∈ l₁, p a = true) :
    (l₁ ++ l₂).takeWhile p = l₁ ++ l₂.takeWhile p := by
  induction l₁ with
  | nil => simp
  | cons a l ih =>
    have ha : p a = true := h a (List.mem_cons_self a l)
    have ih' := ih (fun b hb => h b (List.mem_cons_of_mem a hb))
    simp [ha, ih']

lemma dropWhile_all_append (p : ℚ → Bool) (l₁ l₂ : List ℚ) (h : ∀ a ∈ l₁, p a = true) :
    (l₁ ++ l₂).dropWhile p = l₂.dropWhile p := by
  induction l₁ with
  | nil => simp
  | cons a l ih =>
    have ha : p a = true := h a (List.mem_cons_self a l)
    have ih' := ih (fun b hb => h b (List.mem_cons_of_mem a hb))
    simp [ha, ih']

/-- On an all-silent input, `specTrim` returns the empty list. -/
lemma specTrim_all_silent (minTrim : ℕ) (θ : ℚ) (l : List ℚ)
    (h : ∀ a ∈ l, |a| ≤ θ) : specTrim minTrim θ l = [] := by
  have hdrop : l.dropWhile (fun x => decide (|x| ≤ θ)) = [] := by
    rw [List.dropWhile_eq_nil_iff]
    intro a ha; simpa using h a ha
  rw [specTrim]
  split
  · rfl
  · rename_i x rest heq
    rw [hdrop] at heq
    exact absurd heq (by simp)

/-- Unfolding equation for `specTrim` when the remainder after the leading
silent run is known. -/
lemma specTrim_unfold (minTrim : ℕ) (θ : ℚ) (xs : List ℚ) (x : ℚ) (rest : List ℚ)
    (heq : xs.dropWhile (fun y => decide (|y| ≤ θ)) = x :: rest) :
    specTrim minTrim θ xs =
      (if (xs.takeWhile (fun y => decide (|y| ≤ θ))).length < minTrim then
         xs.takeWhile (fun y => decide (|y| ≤ θ))
       else []) ++ x :: specTrim minTrim θ rest := by
  rw [specTrim]
  split
  · rename_i h2
    rw [heq] at h2
    exact absurd h2 (by simp)
  · rename_i y rest' h2
    rw [heq] at h2
    injection h2 with h3 h4
    subst h3
    subst h4
    rfl

lemma specTrim_silent_cons (minTrim : ℕ) (θ : ℚ) (pending xs : List ℚ)
    (hp : ∀ a ∈ pending, |a| ≤ θ) (x : ℚ) (hx : ¬ |x| ≤ θ) :
    specTrim minTrim θ (pending ++ x :: xs) =
      (if pending.length < minTrim then pending else []) ++ x :: specTrim minTrim θ xs := by
  have hp' : ∀ a ∈ pending, (fun y => decide (|y| ≤ θ)) a = true := by
    intro a ha; simpa using hp a ha
  have hdrop : (pending ++ x :: xs).dropWhile (fun y => decide (|y| ≤ θ)) = x :: xs := by
    rw [dropWhile_all_append _ _ _ hp', List.dropWhile_cons]
    simp [hx]
  have htake : (pending ++ x :: xs).takeWhile (fun y => decide (|y| ≤ θ)) = pending := by
    rw [takeWhile_all_append _ _ _ hp', List.takeWhile_cons]
    simp [hx]
  rw [specTrim_unfold minTrim θ _ x xs hdrop, htake]

lemma trimGo_eq_specTrim (minTrim : ℕ) (θ : ℚ) (xs : List ℚ) :
    ∀ pending, (∀ a ∈ pending, |a| ≤ θ) →
      trimGo minTrim θ [] pending xs = specTrim minTrim θ (pending ++ xs) := by
  induction xs with
  | nil =>
    intro pending hp
    simp only [trimGo, List.append_nil]
    exact (specTrim_all_silent minTrim θ pending hp).symm
  | cons x xs ih =>
    intro pending hp
    by_cases hx : |x| ≤ θ
    · simp only [trimGo, if_pos hx]
      rw [ih (pending ++ [x]) (by intro a ha; rcases List.mem_append.1 ha with h | h
                                  · exact hp a h
                                  · simp at h; subst h; exact hx)]
      simp
    · simp only [trimGo, if_neg hx, List.nil_append]
      rw [trimGo_acc, ih [] (by simp)]
      rw [specTrim_silent_cons minTrim θ pending xs hp x hx]
      rcases pending with _ | ⟨a, l⟩
      · simp
      · simp only [List.length_cons, List.append_assoc, List.cons_append]
        by_cases hlen : (a :: l).length < minTrim
        · simp only [List.length_cons] at hlen
          simp [hlen]
        · simp only [List.length_cons] at hlen
          simp [hlen]

/-- The executable trim agrees with the run-by-run description `specTrim`. -/
lemma trimSilence_eq_specTrim (rawData : List ℚ) (minTrim : ℕ) (θ : ℚ) :
    trimSilence rawData minTrim θ = specTrim minTrim θ rawData := by
  rw [trimSilence, trimGo_eq_specTrim minTrim θ rawData [] (by simp)]
  rfl

lemma mem_takeWhile_silent (θ : ℚ) (xs : List ℚ) :
    ∀ a ∈ xs.takeWhile (fun x => decide (|x| ≤ θ)), |a| ≤ θ := by
  intro a ha
  simpa using List.mem_takeWhile_imp ha

lemma dropWhile_head_false (p : ℚ → Bool) :
    ∀ xs x rest, List.dropWhile p xs = x :: rest → p x = false := by
  intro xs
  induction xs with
  | nil => intro x rest h; simp [List.dropWhile] at h
  | cons a l ih =>
    intro x rest h
    rw [List.dropWhile_cons] at h
    by_cases hpa : p a
    · rw [if_pos hpa] at h
      exact ih x rest h
    · rw [if_neg hpa] at h
      injection h with h1 h2
      subst h1
      simpa using hpa

lemma specTrim_idem (minTrim : ℕ) (θ : ℚ) : ∀ n (xs : List ℚ), xs.length ≤ n →
    specTrim minTrim θ (specTrim minTrim θ xs) = specTrim minTrim θ xs := by
  intro n
  induction n with
  | zero =>
    intro xs hxs
    have hnil : xs = [] := List.length_eq_zero.1 (Nat.le_zero.1 hxs)
    subst hnil
    rw [specTrim_all_silent minTrim θ [] (by simp)]
    exact specTrim_all_silent minTrim θ [] (by simp)
  | succ n ih =>
    intro xs hxs
    cases heq : xs.dropWhile (fun y => decide (|y| ≤ θ)) with
    | nil =>
      have h1 : specTrim minTrim θ xs = [] :=
        specTrim_all_silent minTrim θ xs
          (by intro a ha
              have := (List.dropWhile_eq_nil_iff).1 heq a ha
              simpa using this)
      rw [h1]
      exact specTrim_all_silent minTrim θ [] (by simp)
    | cons x rest =>
      have hx : ¬ |x| ≤ θ := by
        have hh := dropWhile_head_false (fun y => decide (|y| ≤ θ)) xs x rest heq
        simpa using hh
      have hrest : rest.length ≤ n := by
        have hle : (xs.dropWhile (fun y => decide (|y| ≤ θ))).length ≤ xs.length :=
          (List.dropWhile_sublist _).length_le
        rw [heq] at hle
        simp only [List.length_cons] at hle
        omega
      rw [specTrim_unfold minTrim θ xs x rest heq]
      set kept := (if (xs.takeWhile fun y => decide (|y| ≤ θ)).length < minTrim then
          xs.takeWhile (fun y => decide (|y| ≤ θ)) else []) with hkept
      have hkeptsil : ∀ a ∈ kept, |a| ≤ θ := by
        rw [hkept]
        split
        · exact mem_takeWhile_silent θ xs
        · simp
      have hkeptlen : kept.length < minTrim ∨ kept = [] := by
        rw [hkept]; split
        · left; assumption
        · right; rfl
      rw [specTrim_silent_cons minTrim θ kept (specTrim minTrim θ rest) hkeptsil x hx]
      rw [ih rest hrest]
      rcases hkeptlen with h | h
      · rw [if_pos h]
      · rw [h]
        simp

/-- C2: counterexample to the claim as stated.  In `[1/2, 0]` with
`minSilenceTrimSamples = 5` and threshold `1/100`, the single silent run
`[0]` has length `1 < 5`, so the claim says it is kept in full and the
output is the whole input; the code drops the trailing silent run and
returns `[1/2]`. -/
theorem c2_trailing_run_counterexample :
    (1 : ℕ) < 5 ∧
    trimSilence [(1 : ℚ)/2, 0] 5 (1/100) = [(1 : ℚ)/2] ∧
    trimSilence [(1 : ℚ)/2, 0] 5 (1/100) ≠ [(1 : ℚ)/2, 0] := by
  have habs : |(1 : ℚ)/2| = 1/2 := by
    rw [abs_of_pos]
    norm_num
  refine ⟨by norm_num, ?_, ?_⟩ <;> norm_num [trimSilence, trimGo, habs]

/-- C2 (amended): `trimSilence` keeps every interior silent run (one
followed by a later non-silent sample) that is shorter than
`minSilenceTrimSamples` in full, drops every interior silent run at or
above that length entirely, keeps every non-silent sample, and always
drops a trailing silent run regardless of its length — that is, it equals
the run-by-run reference function `specTrim`. -/
theorem c2_trim_runs_amended (rawData : List ℚ) (minTrim : ℕ) (θ : ℚ) :
    trimSilence rawData minTrim θ = specTrim minTrim θ rawData :=
  trimSilence_eq_specTrim rawData minTrim θ

/-- C3: trim is idempotent — running `trimSilence` on its own output
changes nothing, since every surviving silent run is short and interior. -/
theorem c3_trim_idempotent (rawData : List ℚ) (minTrim : ℕ) (θ : ℚ) :
    trimSilence (trimSilence rawData minTrim θ) minTrim θ = trimSilence rawData minTrim θ := by
  rw [trimSilence_eq_specTrim, trimSilence_eq_specTrim]
  exact specTrim_idem minTrim θ rawData.length rawData le_rfl

lemma chooseEnd_gt (data : List ℚ) (maxSamples W R : ℕ) (θ : ℚ) (startSample : ℕ)
    (hM : 0 < maxSamples) (hs : startSample < data.length) :
    startSample < chooseEnd data maxSamples W R θ startSample := by
  have hnaive : startSample < min (startSample + maxSamples) data.length := by omega
  unfold chooseEnd
  split
  · split
    · split
      · assumption
      · exact hnaive
    · exact hnaive
  · exact hnaive

lemma isBackWindowSilent_iff (data : List ℚ) (θ : ℚ) (W i : ℕ) (hWi : W ≤ i) :
    isBackWindowSilent data θ W i = true ↔ ∀ j, i - W ≤ j → j < i → |data.getD j 0| ≤ θ := by
  unfold isBackWindowSilent
  rw [List.all_eq_true]
  constructor
  · intro h j h1 h2
    have hj : j ∈ List.range' (i - W) W := by rw [List.mem_range'_1]; omega
    simpa using h j hj
  · intro h j hj
    rw [List.mem_range'_1] at hj
    simp only [decide_eq_true_eq]
    exact h j hj.1 (by omega)

lemma isFwdWindowSilent_iff (data : List ℚ) (θ : ℚ) (W total i : ℕ) :
    isFwdWindowSilent data θ W total i = true ↔
      ∀ j, i ≤ j → j < min (i + W) total → |data.getD j 0| ≤ θ := by
  unfold isFwdWindowSilent
  rw [List.all_eq_true]
  constructor
  · intro h j h1 h2
    have hj : j ∈ List.range' i (min (i + W) total - i) := by rw [List.mem_range'_1]; omega
    simpa using h j hj
  · intro h j hj
    rw [List.mem_range'_1] at hj
    simp only [decide_eq_true_eq]
    exact h j hj.1 (by omega)

lemma findSplit_back (data : List ℚ) (θ : ℚ) (W R naive : ℕ)
    (hex : ∃ i, BackWin data θ W R naive i) :
    ∃ i, BackWin data θ W R naive i ∧
      findSilenceSplitPoint data naive data.length W R θ = some (i - W) := by
  obtain ⟨i₀, h₀⟩ := hex
  obtain ⟨ha₀, hb₀, hw₀⟩ := h₀
  have hmem : i₀ ∈ (List.range' (max W (naive - R)) (naive + 1 - max W (naive - R))).reverse := by
    rw [List.mem_reverse, List.mem_range'_1]
    omega
  have hp : isBackWindowSilent data θ W i₀ = true := by
    rw [isBackWindowSilent_iff data θ W i₀ (by omega)]
    exact hw₀
  have hsome : ((List.range' (max W (naive - R)) (naive + 1 - max W (naive - R))).reverse.find?
      (isBackWindowSilent data θ W)).isSome := by
    rw [List.find?_isSome]
    exact ⟨i₀, hmem, hp⟩
  obtain ⟨i, hi⟩ := Option.isSome_iff_exists.1 hsome
  have hpi := List.find?_some hi
  have hmemi := List.mem_of_find?_eq_some hi
  rw [List.mem_reverse, List.mem_range'_1] at hmemi
  rw [isBackWindowSilent_iff data θ W i (by omega)] at hpi
  refine ⟨i, ⟨by omega, by omega, hpi⟩, ?_⟩
  unfold findSilenceSplitPoint
  rw [hi]

lemma findSplit_back_none (data : List ℚ) (θ : ℚ) (W R naive : ℕ)
    (hnone : ∀ i, ¬ BackWin data θ W R naive i) :
    ((List.range' (max W (naive - R)) (naive + 1 - max W (naive - R))).reverse.find?
      (isBackWindowSilent data θ W)) = none := by
  rw [List.find?_eq_none]
  intro i hmem
  rw [List.mem_reverse, List.mem_range'_1] at hmem
  intro hp
  apply hnone i
  rw [isBackWindowSilent_iff data θ W i (by omega)] at hp
  exact ⟨by omega, by omega, hp⟩

lemma findSplit_fwd (data : List ℚ) (θ : ℚ) (W R naive : ℕ)
    (hnone : ∀ i, ¬ BackWin data θ W R naive i)
    (hex : ∃ i, FwdWin data θ W R naive i) :
    ∃ i, FwdWin data θ W R naive i ∧
      findSilenceSplitPoint data naive data.length W R θ = some i := by
  obtain ⟨i₀, h₀⟩ := hex
  obtain ⟨ha₀, hb₀, hw₀⟩ := h₀
  have hmem : i₀ ∈ List.range' naive (min data.length (naive + R) - naive) := by
    rw [List.mem_range'_1]
    omega
  have hp : isFwdWindowSilent data θ W data.length i₀ = true := by
    rw [isFwdWindowSilent_iff]
    exact hw₀
  have hsome : ((List.range' naive (min data.length (naive + R) - naive)).find?
      (isFwdWindowSilent data θ W data.length)).isSome := by
    rw [List.find?_isSome]
    exact ⟨i₀, hmem, hp⟩
  obtain ⟨i, hi⟩ := Option.isSome_iff_exists.1 hsome
  have hpi := List.find?_some hi
  have hmemi := List.mem_of_find?_eq_some hi
  rw [List.mem_range'_1] at hmemi
  rw [isFwdWindowSilent_iff] at hpi
  refine ⟨i, ⟨by omega, by omega, hpi⟩, ?_⟩
  unfold findSilenceSplitPoint
  rw [findSplit_back_none data θ W R naive hnone, hi]

lemma findSplit_none (data : List ℚ) (θ : ℚ) (W R naive : ℕ)
    (hb : ∀ i, ¬ BackWin data θ W R naive i)
    (hf : ∀ i, ¬ FwdWin data θ W R naive i) :
    findSilenceSplitPoint data naive data.length W R θ = none := by
  unfold findSilenceSplitPoint
  rw [findSplit_back_none data θ W R naive hb]
  rw [List.find?_eq_none]
  intro i hmem
  rw [List.mem_range'_1] at hmem
  intro hp
  apply hf i
  rw [isFwdWindowSilent_iff] at hp
  exact ⟨by omega, by omega, hp⟩

/-- C4: when the naive window end `startSample + maxSamples` is interior,
the split step cuts at the start of a backward silent window when one
exists in the search range (backward always preferred), otherwise at a
forward silent window position when one exists, and otherwise exactly at
the naive boundary.  The hypothesis `R + W < maxSamples` holds for the
fixed program constants (window 0.3 s, search range 5 s, max chunk
duration 600 s or 900 s, all at 16 kHz). -/
theorem c4_silence_cut_preference (data : List ℚ) (maxSamples W R : ℕ) (θ : ℚ)
    (startSample : ℕ)
    (hnb : startSample + maxSamples < data.length)
    (hgap : R + W < maxSamples) :
    ((∃ i, BackWin data θ W R (startSample + maxSamples) i) →
       ∃ i, BackWin data θ W R (startSample + maxSamples) i ∧
         chooseEnd data maxSamples W R θ startSample = i - W) ∧
    ((∀ i, ¬ BackWin data θ W R (startSample + maxSamples) i) →
       (∃ i, FwdWin data θ W R (startSample + maxSamples) i) →
       ∃ i, FwdWin data θ W R (startSample + maxSamples) i ∧
         chooseEnd data maxSamples W R θ startSample = i) ∧
    ((∀ i, ¬ BackWin data θ W R (startSample + maxSamples) i) →
       (∀ i, ¬ FwdWin data θ W R (startSample + maxSamples) i) →
       chooseEnd data maxSamples W R θ startSample = startSample + maxSamples) := by
  have hmin : min (startSample + maxSamples) data.length = startSample + maxSamples :=
    min_eq_left (le_of_lt hnb)
  refine ⟨?_, ?_, ?_⟩
  · intro hex
    obtain ⟨i, hBW, heq⟩ := findSplit_back data θ W R (startSample + maxSamples) hex
    obtain ⟨h1, h2, h3⟩ := hBW
    have hlt : startSample < i - W := by omega
    refine ⟨i, ⟨h1, h2, h3⟩, ?_⟩
    unfold chooseEnd
    rw [hmin, if_pos hnb, heq]
    simp [hlt]
  · intro hb hex
    obtain ⟨i, hFW, heq⟩ := findSplit_fwd data θ W R (startSample + maxSamples) hb hex
    obtain ⟨h1, h2, h3⟩ := hFW
    have hlt : startSample < i := by omega
    refine ⟨i, ⟨h1, h2, h3⟩, ?_⟩
    unfold chooseEnd
    rw [hmin, if_pos hnb, heq]
    simp [hlt]
  · intro hb hf
    unfold chooseEnd
    rw [hmin, if_pos hnb, findSplit_none data θ W R (startSample + maxSamples) hb hf]

/-- C4 witness: a concrete buffer with a silent sample just before the
naive boundary, at which the split step must cut. -/
theorem c4_silence_cut_preference_witness :
    ((0 : ℕ) + 4 < ([(1 : ℚ), 1, 1, 0, 1, 1]).length) ∧ ((2 : ℕ) + 1 < 4) ∧
    (((∃ i, BackWin [(1 : ℚ), 1, 1, 0, 1, 1] 0 1 2 (0 + 4) i) →
       ∃ i, BackWin [(1 : ℚ), 1, 1, 0, 1, 1] 0 1 2 (0 + 4) i ∧
         chooseEnd [(1 : ℚ), 1, 1, 0, 1, 1] 4 1 2 0 0 = i - 1) ∧
    ((∀ i, ¬ BackWin [(1 : ℚ), 1, 1, 0, 1, 1] 0 1 2 (0 + 4) i) →
       (∃ i, FwdWin [(1 : ℚ), 1, 1, 0, 1, 1] 0 1 2 (0 + 4) i) →
       ∃ i, FwdWin [(1 : ℚ), 1, 1, 0, 1, 1] 0 1 2 (0 + 4) i ∧
         chooseEnd [(1 : ℚ), 1, 1, 0, 1, 1] 4 1 2 0 0 = i) ∧
    ((∀ i, ¬ BackWin [(1 : ℚ), 1, 1, 0, 1, 1] 0 1 2 (0 + 4) i) →
       (∀ i, ¬ FwdWin [(1 : ℚ), 1, 1, 0, 1, 1] 0 1 2 (0 + 4) i) →
       chooseEnd [(1 : ℚ), 1, 1, 0, 1, 1] 4 1 2 0 0 = 0 + 4)) :=
  ⟨by decide, by decide,
   c4_silence_cut_preference [(1 : ℚ), 1, 1, 0, 1, 1] 4 1 2 0 0 (by decide) (by decide)⟩

/-- With an always-failing silence search, every window ends at the naive
boundary. -/
lemma chooseEnd_no_silence (data : List ℚ) (maxSamples W R : ℕ) (θ : ℚ) (startSample : ℕ)
    (hns : ∀ d, d < data.length → findSilenceSplitPoint data d data.length W R θ = none) :
    chooseEnd data maxSamples W R θ startSample = min (startSample + maxSamples) data.length := by
  unfold chooseEnd
  by_cases hlt : min (startSample + maxSamples) data.length < data.length
  · rw [if_pos hlt, hns _ hlt]
  · rw [if_neg hlt]

/-- Naive splitting: chunk count and reconstruction, for any suffix of the
buffer whose remainder against `maxSamples` meets the floor. -/
lemma splitLoop_no_silence (data : List ℚ) (maxSamples minChunkSamples W R : ℕ) (θ : ℚ)
    (hM : 0 < maxSamples)
    (hns : ∀ d, d < data.length → findSilenceSplitPoint data d data.length W R θ = none)
    (hminmax : minChunkSamples ≤ maxSamples) :
    ∀ n startSample, data.length - startSample ≤ n →
      ((data.length - startSample) % maxSamples = 0 ∨
        minChunkSamples ≤ (data.length - startSample) % maxSamples) →
      (splitLoop data maxSamples minChunkSamples W R θ startSample).length
          = (data.length - startSample + maxSamples - 1) / maxSamples ∧
      (splitLoop data maxSamples minChunkSamples W R θ startSample).flatten
          = data.drop startSample := by
  intro n
  induction n with
  | zero =>
    intro start hle _hrem
    rw [splitLoop, dif_neg (by omega)]
    refine ⟨?_, ?_⟩
    · have h0 : data.length - start = 0 := by omega
      rw [h0, List.length_nil]
      rw [Nat.zero_add]
      exact (Nat.div_eq_of_lt (by omega)).symm
    · rw [List.flatten_nil]
      exact (List.drop_eq_nil_of_le (by omega)).symm
  | succ n ih =>
    intro start hle hrem
    by_cases hs : start < data.length
    · rw [splitLoop, dif_pos ⟨hs, hM⟩]
      rw [chooseEnd_no_silence data maxSamples W R θ start hns]
      by_cases hcase : start + maxSamples ≤ data.length
      · -- full window of maxSamples samples
        have hmin : min (start + maxSamples) data.length = start + maxSamples :=
          min_eq_left hcase
        rw [hmin]
        have hseg : start + maxSamples - start = maxSamples := by omega
        rw [hseg, if_pos hminmax]
        have hrem' : (data.length - (start + maxSamples)) % maxSamples = 0 ∨
            minChunkSamples ≤ (data.length - (start + maxSamples)) % maxSamples := by
          have hmod : (data.length - start) % maxSamples
              = (data.length - (start + maxSamples)) % maxSamples := by
            have h1 : data.length - start = (data.length - (start + maxSamples)) + maxSamples := by
              omega
            rw [h1, Nat.add_mod_right]
          rw [hmod] at hrem
          exact hrem
        obtain ⟨ihc, ihf⟩ := ih (start + maxSamples) (by omega) hrem'
        refine ⟨?_, ?_⟩
        · rw [List.length_append, ihc, List.length_singleton]
          have h1 : data.length - start + maxSamples - 1
              = (data.length - (start + maxSamples) + maxSamples - 1) + maxSamples := by
            omega
          rw [h1, Nat.add_div_right _ hM]
          omega
        · rw [List.flatten_append, ihf]
          rw [List.flatten_cons, List.flatten_nil, List.append_nil]
          have h2 : data.drop (start + maxSamples) = (data.drop start).drop maxSamples := by
            rw [List.drop_drop]
          rw [h2]
          exact List.take_append_drop _ _
      · -- final partial window
        have hmin : min (start + maxSamples) data.length = data.length :=
          min_eq_right (by omega)
        rw [hmin]
        have hmod : (data.length - start) % maxSamples = data.length - start :=
          Nat.mod_eq_of_lt (by omega)
        have hfloor : minChunkSamples ≤ data.length - start := by
          rcases hrem with h | h
          · omega
          · omega
        rw [if_pos hfloor]
        obtain ⟨ihc, ihf⟩ := ih data.length (by omega)
          (by rw [Nat.sub_self, Nat.zero_mod]; left; rfl)
        refine ⟨?_, ?_⟩
        · rw [List.length_append, ihc, List.length_singleton]
          have h2 : (data.length - data.length + maxSamples - 1) / maxSamples = 0 :=
            Nat.div_eq_of_lt (by omega)
          have h3 : data.length - start + maxSamples - 1
              = (data.length - start - 1) + maxSamples := by omega
          have h4 : (data.length - start + maxSamples - 1) / maxSamples
              = (data.length - start - 1) / maxSamples + 1 := by
            rw [h3, Nat.add_div_right _ hM]
          have h5 : (data.length - start - 1) / maxSamples = 0 :=
            Nat.div_eq_of_lt (by omega)
          omega
        · rw [List.flatten_append, ihf, List.drop_eq_nil_of_le le_rfl, List.append_nil]
          rw [List.flatten_cons, List.flatten_nil, List.append_nil]
          have hlen : (data.drop start).length = data.length - start := List.length_drop _ _
          rw [List.take_of_length_le (by omega)]
    · rw [splitLoop, dif_neg (by omega)]
      refine ⟨?_, ?_⟩
      · have h0 : data.length - start = 0 := by omega
        rw [h0, List.length_nil, Nat.zero_add]
        exact (Nat.div_eq_of_lt (by omega)).symm
      · rw [List.flatten_nil]
        exact (List.drop_eq_nil_of_le (by omega)).symm

/-- C1: counterexample to the claim as stated.  Five non-silent samples
with a four-sample max window and a two-sample minimum floor: the search
never finds silence (the claim precondition holds), yet the trailing
one-sample window is dropped, so only one segment is emitted instead of
`ceil(5/4) = 2` and concatenation loses the final sample. -/
theorem c1_floor_drop_counterexample :
    (∀ d, d < 5 → findSilenceSplitPoint [(1 : ℚ), 1, 1, 1, 1] d 5 1 1 0 = none) ∧
    (splitAtSilenceSegments [(1 : ℚ), 1, 1, 1, 1] 4 2 1 1 0).length = 1 ∧
    ((5 + 4 - 1) / 4 : ℕ) = 2 ∧
    (splitAtSilenceSegments [(1 : ℚ), 1, 1, 1, 1] 4 2 1 1 0).flatten ≠ [(1 : ℚ), 1, 1, 1, 1] := by
  have hrun : splitAtSilenceSegments [(1 : ℚ), 1, 1, 1, 1] 4 2 1 1 0 = [[(1 : ℚ), 1, 1, 1]] := by
    rw [splitAtSilenceSegments, splitLoop, dif_pos (by decide)]
    rw [show chooseEnd [(1 : ℚ), 1, 1, 1, 1] 4 1 1 0 0 = 4 from by decide]
    rw [splitLoop, dif_pos (by decide)]
    rw [show chooseEnd [(1 : ℚ), 1, 1, 1, 1] 4 1 1 0 4 = 5 from by decide]
    rw [splitLoop, dif_neg (by decide)]
    decide
  rw [hrun]
  refine ⟨by decide, by decide, by decide, by decide⟩

/-- C1 (amended): when the silence search never finds a qualifying window
and additionally every naive window meets the minimum-chunk floor (the
floor is at most `maxSamples`, and the final fragment is either empty or
at least the floor), Split emits exactly `ceil(length / maxSamples)`
segments and concatenating them in order reconstructs the buffer exactly.
Without the floor condition the trailing fragment is silently dropped
(see the counterexample). -/
theorem c1_split_count_and_reconstruct_amended (data : List ℚ)
    (maxSamples minChunkSamples W R : ℕ) (θ : ℚ)
    (hM : 0 < maxSamples)
    (hns : ∀ d, d < data.length → findSilenceSplitPoint data d data.length W R θ = none)
    (hminmax : minChunkSamples ≤ maxSamples)
    (hrem : data.length % maxSamples = 0 ∨ minChunkSamples ≤ data.length % maxSamples) :
    (splitAtSilenceSegments data maxSamples minChunkSamples W R θ).length
        = (data.length + maxSamples - 1) / maxSamples ∧
    (splitAtSilenceSegments data maxSamples minChunkSamples W R θ).flatten = data := by
  obtain ⟨hc, hf⟩ := splitLoop_no_silence data maxSamples minChunkSamples W R θ hM hns hminmax
    data.length 0 (by omega) (by simpa using hrem)
  rw [splitAtSilenceSegments]
  constructor
  · rw [hc, Nat.sub_zero]
  · rw [hf, List.drop_zero]

/-- C1 witness: three non-silent samples, max window two, floor one; two
segments, and their concatenation is the input. -/
theorem c1_split_count_and_reconstruct_witness :
    ((0 : ℕ) < 2) ∧
    (∀ d, d < ([(1 : ℚ), 1, 1]).length →
      findSilenceSplitPoint [(1 : ℚ), 1, 1] d ([(1 : ℚ), 1, 1]).length 1 1 0 = none) ∧
    ((1 : ℕ) ≤ 2) ∧
    (([(1 : ℚ), 1, 1]).length % 2 = 0 ∨ 1 ≤ ([(1 : ℚ), 1, 1]).length % 2) ∧
    ((splitAtSilenceSegments [(1 : ℚ), 1, 1] 2 1 1 1 0).length
        = (([(1 : ℚ), 1, 1]).length + 2 - 1) / 2 ∧
      (splitAtSilenceSegments [(1 : ℚ), 1, 1] 2 1 1 1 0).flatten = [(1 : ℚ), 1, 1]) :=
  ⟨by decide, by decide, by decide, by decide,
   c1_split_count_and_reconstruct_amended [(1 : ℚ), 1, 1] 2 1 1 1 0 (by decide) (by decide)
     (by decide) (by decide)⟩

@[simp] lemma u16le_length (v : ℕ) : (u16le v).length = 2 := rfl

@[simp] lemma u32le_length (v : ℕ) : (u32le v).length = 4 := rfl

@[simp] lemma i16le_length (v : ℤ) : (i16le v).length = 2 := rfl

lemma strBytes_RIFF : strBytes ("RIFF") = [82, 73, 70, 70] := by decide

lemma strBytes_WAVE : strBytes ("WAVE") = [87, 65, 86, 69] := by decide

lemma strBytes_fmtsp : strBytes ("fmt ") = [102, 109, 116, 32] := by decide

lemma strBytes_data : strBytes ("data") = [100, 97, 116, 97] := by decide

/-- An in-range write into the zero-filled tail splices the bytes in. -/
lemma writeBytes_chain (pre : List ℕ) (m off : ℕ) (bs : List ℕ)
    (hoff : pre.length = off) (hle : bs.length ≤ m) :
    writeBytes (pre ++ List.replicate m 0) off bs
      = (pre ++ bs) ++ List.replicate (m - bs.length) 0 := by
  subst hoff
  unfold writeBytes
  rw [List.take_left]
  have h1 : (pre ++ List.replicate m 0).length - pre.length = m := by simp
  rw [h1, List.take_of_length_le hle]
  have h2 : (pre ++ List.replicate m 0).drop (pre.length + bs.length)
      = List.replicate (m - bs.length) 0 := by
    rw [← List.drop_drop, List.drop_left, List.drop_replicate]
  rw [h2, List.append_assoc]

/-- The sample loop fills the zero tail with the payload bytes. -/
lemma writeSamples_fill : ∀ (samples : List ℚ) (pre : List ℕ) (off m : ℕ),
    pre.length = off → m = 2 * samples.length →
    writeSamples (pre ++ List.replicate m 0) off samples = pre ++ wavPayload samples := by
  intro samples
  induction samples with
  | nil =>
    intro pre off m _h1 h2
    subst h2
    simp [writeSamples, wavPayload]
  | cons s rest ih =>
    intro pre off m h1 h2
    rw [writeSamples]
    rw [writeBytes_chain pre m off _ h1 (by simp only [i16le_length, h2, List.length_cons]; omega)]
    have h3 : m - (i16le (sampleToI16 s)).length = 2 * rest.length := by
      simp only [i16le_length, h2, List.length_cons]
      omega
    rw [h3]
    rw [ih (pre ++ i16le (sampleToI16 s)) (off + 2) _ (by simp [← h1]) rfl]
    simp [wavPayload, List.append_assoc]

/-- C5: the encoder output is exactly the declared 44-byte header (1
channel, the given sample rate, 16-bit depth, payload length 2 bytes per
sample) followed by the little-endian 16-bit samples obtained by clamping
each sample to `[-1, 1]` and scaling negatives by 32768 and non-negatives
by 32767. -/
theorem c5_wav_encoder_layout (samples : List ℚ) (sampleRate : ℕ) :
    float32ToWavBuffer samples sampleRate
      = wavHeaderBytes samples.length sampleRate ++ wavPayload samples ∧
    (wavHeaderBytes samples.length sampleRate).length = 44 := by
  constructor
  · simp only [float32ToWavBuffer]
    rw [strBytes_RIFF, strBytes_WAVE, strBytes_fmtsp, strBytes_data]
    rw [show List.replicate (44 + samples.length * 2) (0 : ℕ)
        = [] ++ List.replicate (44 + samples.length * 2) 0 from rfl]
    rw [writeBytes_chain _ _ _ _ (by simp <;> omega) (by simp <;> omega)]
    rw [writeBytes_chain _ _ _ _ (by simp <;> omega) (by simp <;> omega)]
    rw [writeBytes_chain _ _ _ _ (by simp <;> omega) (by simp <;> omega)]
    rw [writeBytes_chain _ _ _ _ (by simp <;> omega) (by simp <;> omega)]
    rw [writeBytes_chain _ _ _ _ (by simp <;> omega) (by simp <;> omega)]
    rw [writeBytes_chain _ _ _ _ (by simp <;> omega) (by simp <;> omega)]
    rw [writeBytes_chain _ _ _ _ (by simp <;> omega) (by simp <;> omega)]
    rw [writeBytes_chain _ _ _ _ (by simp <;> omega) (by simp <;> omega)]
    rw [writeBytes_chain _ _ _ _ (by simp <;> omega) (by simp <;> omega)]
    rw [writeBytes_chain _ _ _ _ (by simp <;> omega) (by simp <;> omega)]
    rw [writeBytes_chain _ _ _ _ (by simp <;> omega) (by simp <;> omega)]
    rw [writeBytes_chain _ _ _ _ (by simp <;> omega) (by simp <;> omega)]
    rw [writeBytes_chain _ _ _ _ (by simp <;> omega) (by simp <;> omega)]
    rw [writeSamples_fill samples _ 44 _ (by simp <;> omega) (by simp <;> omega)]
    rw [wavHeaderBytes, strBytes_RIFF, strBytes_WAVE, strBytes_fmtsp, strBytes_data]
    simp [List.append_assoc]
  · rw [wavHeaderBytes, strBytes_RIFF, strBytes_WAVE, strBytes_fmtsp, strBytes_data]
    simp

lemma getD_set_self' {α : Type} (l : List α) (i : ℕ) (v d : α) (h : i < l.length) :
    (l.set i v).getD i d = v := by
  simp [List.getD_eq_getElem?_getD, List.getElem?_set_self h]

lemma getD_set_ne' {α : Type} (l : List α) (i j : ℕ) (v d : α) (h : i ≠ j) :
    (l.set i v).getD j d = l.getD j d := by
  simp [List.getD_eq_getElem?_getD, List.getElem?_set_ne h]

lemma lt_length_of_getD_ne {α : Type} (l : List α) (i : ℕ) (d : α) (h : l.getD i d ≠ d) :
    i < l.length := by
  by_contra hc
  exact h (List.getD_eq_default _ _ (by omega))

lemma poolStep_inv {ε α : Type} (f : ℕ → Except ε α) (g : ℕ → α) (n : ℕ)
    (hf : ∀ i, i < n → f i = Except.ok (g i)) (s : Pool ε α) (w : ℕ)
    (hinv : PoolInv g n s) : PoolInv g n (poolStep f n s w).1 := by
  obtain ⟨h1, h2, h3, h4, h5, h6, h7, h8⟩ := hinv
  unfold poolStep
  split
  · -- idle worker
    rename_i hst
    rw [if_neg (by rw [h2]; simp)]
    have hwlt : w < s.workers.length := lt_length_of_getD_ne _ _ _ (by rw [hst]; simp)
    by_cases hn : s.nextIndex < n
    · rw [if_pos hn]
      simp only [PoolInv]
      refine ⟨h1, h2, h3, by omega, h5, ?_, ?_, ?_⟩
      · intro j hj
        by_cases hjn : j = s.nextIndex
        · subst hjn
          right
          exact ⟨w, by rw [getD_set_self' _ _ _ _ hwlt]⟩
        · rcases h6 j (by omega) with h | ⟨w', hw'⟩
          · exact Or.inl h
          · right
            refine ⟨w', ?_⟩
            by_cases hww : w = w'
            · subst hww; rw [hst] at hw'; cases hw'
            · rw [getD_set_ne' _ _ _ _ _ hww]; exact hw'
      · intro w' i hw'
        by_cases hww : w = w'
        · subst hww
          rw [getD_set_self' _ _ _ _ hwlt] at hw'
          injection hw' with hi
          omega
        · rw [getD_set_ne' _ _ _ _ _ hww] at hw'
          have := h7 w' i hw'
          omega
      · intro w' hw'
        by_cases hww : w = w'
        · subst hww
          rw [getD_set_self' _ _ _ _ hwlt] at hw'
          cases hw'
        · rw [getD_set_ne' _ _ _ _ _ hww] at hw'
          have := h8 w' hw'
          omega
    · rw [if_neg hn]
      simp only [PoolInv]
      refine ⟨h1, h2, h3, h4, h5, ?_, ?_, ?_⟩
      · intro j hj
        rcases h6 j hj with h | ⟨w', hw'⟩
        · exact Or.inl h
        · right
          refine ⟨w', ?_⟩
          by_cases hww : w = w'
          · subst hww; rw [hst] at hw'; cases hw'
          · rw [getD_set_ne' _ _ _ _ _ hww]; exact hw'
      · intro w' i hw'
        by_cases hww : w = w'
        · subst hww
          rw [getD_set_self' _ _ _ _ hwlt] at hw'
          cases hw'
        · rw [getD_set_ne' _ _ _ _ _ hww] at hw'
          exact h7 w' i hw'
      · intro w' hw'
        omega
  · -- busy worker: with all-ok tasks, only the success settlement occurs
    rename_i i hst
    have hin : i < n := by
      have := h7 w i hst
      omega
    rw [hf i hin]
    simp only [PoolInv]
    have hwlt : w < s.workers.length := lt_length_of_getD_ne _ _ _ (by rw [hst]; simp)
    have hilt : i < s.results.length := by omega
    refine ⟨by simp [h1], h2, h3, h4, ?_, ?_, ?_, ?_⟩
    · intro j a hj
      by_cases hji : j = i
      · subst hji
        rw [getD_set_self' _ _ _ _ hilt] at hj
        injection hj with hj
        exact hj.symm
      · rw [getD_set_ne' _ _ _ _ _ (fun hc => hji hc.symm)] at hj
        exact h5 j a hj
    · intro j hj
      by_cases hji : j = i
      · subst hji
        left
        rw [getD_set_self' _ _ _ _ hilt]
        rfl
      · rcases h6 j hj with h | ⟨w', hw'⟩
        · left
          rw [getD_set_ne' _ _ _ _ _ (fun hc => hji hc.symm)]
          exact h
        · by_cases hww : w = w'
          · subst hww
            rw [hst] at hw'
            injection hw' with hw'
            exact absurd hw'.symm hji
          · right
            exact ⟨w', by rw [getD_set_ne' _ _ _ _ _ hww]; exact hw'⟩
    · intro w' j hw'
      by_cases hww : w = w'
      · subst hww
        rw [getD_set_self' _ _ _ _ hwlt] at hw'
        cases hw'
      · rw [getD_set_ne' _ _ _ _ _ hww] at hw'
        exact h7 w' j hw'
    · intro w' hw'
      by_cases hww : w = w'
      · subst hww
        rw [getD_set_self' _ _ _ _ hwlt] at hw'
        cases hw'
      · rw [getD_set_ne' _ _ _ _ _ hww] at hw'
        exact h8 w' hw'
  · exact ⟨h1, h2, h3, h4, h5, h6, h7, h8⟩
  · exact ⟨h1, h2, h3, h4, h5, h6, h7, h8⟩

lemma poolRun_inv {ε α : Type} (f : ℕ → Except ε α) (g : ℕ → α) (n : ℕ)
    (hf : ∀ i, i < n → f i = Except.ok (g i)) :
    ∀ (sched : List ℕ) (s : Pool ε α), PoolInv g n s →
      PoolInv g n (poolRun f n sched s).1 := by
  intro sched
  induction sched with
  | nil => intro s h; exact h
  | cons w ws ih =>
    intro s h
    exact ih _ (poolStep_inv f g n hf s w h)

lemma initPool_inv {ε α : Type} (g : ℕ → α) (numWorkers n : ℕ) :
    PoolInv g n (initPool ε α numWorkers n) := by
  refine ⟨by simp [initPool], rfl, rfl, by simp [initPool], ?_, ?_, ?_, ?_⟩
  · intro j a hj
    rw [initPool] at hj
    simp only [List.getD_eq_getElem?_getD, List.getElem?_replicate] at hj
    by_cases hjn : j < n <;> simp [hjn] at hj
  · intro j hj
    simp [initPool] at hj
  · intro w i hw
    rw [initPool] at hw
    simp only [List.getD_eq_getElem?_getD, List.getElem?_replicate] at hw
    by_cases hwn : w < numWorkers <;> simp [hwn] at hw
  · intro w hw
    rw [initPool] at hw
    simp only [List.getD_eq_getElem?_getD, List.getElem?_replicate] at hw
    by_cases hwn : w < numWorkers <;> simp [hwn] at hw

lemma poolStep_workers_length {ε α : Type} (f : ℕ → Except ε α) (n : ℕ) (s : Pool ε α) (w : ℕ) :
    ((poolStep f n s w).1.workers).length = s.workers.length := by
  unfold poolStep
  split
  · split
    · simp
    · split <;> simp
  · split
    · simp
    · split <;> simp
  · rfl
  · rfl

lemma poolRun_workers_length {ε α : Type} (f : ℕ → Except ε α) (n : ℕ) :
    ∀ (sched : List ℕ) (s : Pool ε α),
      ((poolRun f n sched s).1.workers).length = s.workers.length := by
  intro sched
  induction sched with
  | nil => intro s; rfl
  | cons w ws ih =>
    intro s
    rw [poolRun]
    dsimp only
    rw [ih, poolStep_workers_length]

/-- From a completed failure-free run, read off the fully ordered
results. -/
lemma poolRun_complete_results {ε α : Type} (g : ℕ → α) (n : ℕ) (s : Pool ε α)
    (hinv : PoolInv g n s)
    (hne : s.workers ≠ [])
    (hdone : ∀ st ∈ s.workers, st = WStat.finished) :
    s.firstError = none ∧ s.results = (List.range n).map (fun i => some (g i)) := by
  obtain ⟨h1, h2, h3, h4, h5, h6, h7, h8⟩ := hinv
  refine ⟨h3, ?_⟩
  have hidx : n ≤ s.nextIndex := by
    cases hw : s.workers with
    | nil => exact absurd hw hne
    | cons st rest =>
      apply h8 0
      rw [hw, List.getD_cons_zero]
      exact hdone st (by rw [hw]; exact List.mem_cons_self _ _)
  have hall : ∀ j, j < n → s.results.getD j none = some (g j) := by
    intro j hj
    rcases h6 j (by omega) with h | ⟨w', hw'⟩
    · obtain ⟨a, ha⟩ := Option.isSome_iff_exists.1 h
      rw [ha, h5 j a ha]
    · by_cases hwl : w' < s.workers.length
      · have hmem : s.workers.getD w' WStat.dead ∈ s.workers := by
          rw [List.getD_eq_getElem _ _ hwl]
          exact List.getElem_mem _
        have := hdone _ hmem
        rw [hw'] at this
        cases this
      · rw [List.getD_eq_default _ _ (by omega)] at hw'
        cases hw'
  apply List.ext_getElem
  · simp [h1]
  · intro i hi1 hi2
    have hin : i < n := by simpa [h1] using hi1
    have hgi := hall i hin
    rw [List.getD_eq_getElem _ _ (by omega)] at hgi
    simp [hgi, hin]

/-- C6: in a failure-free run that completes (every worker returned),
each result is stored at its original index — the pool resolves with the
texts in original chunk order regardless of the schedule — and the final
transcript is the per-chunk texts joined by a newline in index order,
then trimmed. -/
theorem c6_order_preserved_and_joined (g : ℕ → String) (c n : ℕ) (sched : List ℕ)
    (hdone : ∀ st ∈ (poolRun (okTask g) n sched
        (initPool String String (max 1 (min c n)) n)).1.workers, st = WStat.finished) :
    (mapWithConcurrencyModel (okTask g) c n sched).1
        = Except.ok ((List.range n).map fun i => some (g i)) ∧
    transcribeWithOpenAIPool (okTask g) c n sched
        = Except.ok (jsTrim (String.intercalate ("\n") ((List.range n).map g))) := by
  by_cases hn : n = 0
  · subst hn
    refine ⟨by simp [mapWithConcurrencyModel], ?_⟩
    rw [transcribeWithOpenAIPool]
    simp [mapWithConcurrencyModel]
  · have hinv := poolRun_inv (okTask g) g n (fun i _ => rfl) sched
      (initPool String String (max 1 (min c n)) n) (initPool_inv g (max 1 (min c n)) n)
    have hlen : ((poolRun (okTask g) n sched
        (initPool String String (max 1 (min c n)) n)).1.workers).length
          = max 1 (min c n) := by
      rw [poolRun_workers_length]
      simp [initPool]
    have hne : (poolRun (okTask g) n sched
        (initPool String String (max 1 (min c n)) n)).1.workers ≠ [] := by
      intro hc
      rw [hc] at hlen
      simp at hlen
      omega
    obtain ⟨hfe, hres⟩ := poolRun_complete_results g n _ hinv hne hdone
    have hout : (mapWithConcurrencyModel (okTask g) c n sched).1
        = Except.ok ((List.range n).map fun i => some (g i)) := by
      rw [mapWithConcurrencyModel, if_neg hn]
      dsimp only
      rw [poolOutcome, hfe, hres]
    refine ⟨hout, ?_⟩
    rw [transcribeWithOpenAIPool, hout]
    dsimp only
    rw [List.map_map]
    have : ((fun o => o.getD "") ∘ fun i => some (g i)) = g := by
      funext i
      simp
    rw [this]

/-- C6 witness: two chunks, two workers, an alternating schedule that
completes both tasks. -/
theorem c6_order_preserved_and_joined_witness :
    (∀ st ∈ (poolRun (okTask fun i => (["hello", "world"]).getD i "") 2 [0, 1, 0, 1, 0, 1]
        (initPool String String (max 1 (min 3 2)) 2)).1.workers, st = WStat.finished) ∧
    ((mapWithConcurrencyModel (okTask fun i => (["hello", "world"]).getD i "") 3 2
        [0, 1, 0, 1, 0, 1]).1
        = Except.ok ((List.range 2).map fun i => some ((["hello", "world"]).getD i "")) ∧
    transcribeWithOpenAIPool (okTask fun i => (["hello", "world"]).getD i "") 3 2
        [0, 1, 0, 1, 0, 1]
        = Except.ok (jsTrim (String.intercalate ("\n")
            ((List.range 2).map fun i => (["hello", "world"]).getD i "")))) :=
  ⟨by decide,
   c6_order_preserved_and_joined (fun i => (["hello", "world"]).getD i "") 3 2
     [0, 1, 0, 1, 0, 1] (by decide)⟩

lemma firstFailErr_append {ε : Type} (l1 l2 : List (PEvent ε)) :
    firstFailErr (l1 ++ l2) = combineFE (firstFailErr l1) (firstFailErr l2) := by
  induction l1 with
  | nil => simp [firstFailErr, combineFE]
  | cons ev l ih =>
    cases ev with
    | take k => simpa [firstFailErr] using ih
    | done k => simpa [firstFailErr] using ih
    | fail k e => simp [firstFailErr, combineFE]

lemma firstFailErr_decomp {ε : Type} (pre post : List (PEvent ε)) (i : ℕ) (e : ε)
    (hpre : ∀ j e', PEvent.fail j e' ∉ pre) :
    firstFailErr (pre ++ PEvent.fail i e :: post) = some e := by
  induction pre with
  | nil => simp [firstFailErr]
  | cons ev l ih =>
    have hl : ∀ j e', PEvent.fail j e' ∉ l :=
      fun j e' hmem => hpre j e' (List.mem_cons_of_mem _ hmem)
    cases ev with
    | take k => simpa [firstFailErr] using ih hl
    | done k => simpa [firstFailErr] using ih hl
    | fail k e' => exact absurd (List.mem_cons_self _ _) (hpre k e')

lemma poolStep_events {ε α : Type} (f : ℕ → Except ε α) (n : ℕ) (s : Pool ε α) (w : ℕ) :
    (poolStep f n s w).2 = [] ∨
    (∃ k, (poolStep f n s w).2 = [PEvent.take k]) ∨
    (∃ k, (poolStep f n s w).2 = [PEvent.done k]) ∨
    (∃ k e, (poolStep f n s w).2 = [PEvent.fail k e]) := by
  unfold poolStep
  split
  · split
    · exact Or.inl rfl
    · split
      · exact Or.inr (Or.inl ⟨_, rfl⟩)
      · exact Or.inl rfl
  · split
    · exact Or.inr (Or.inr (Or.inl ⟨_, rfl⟩))
    · exact Or.inr (Or.inr (Or.inr ⟨_, _, rfl⟩))
  · exact Or.inl rfl
  · exact Or.inl rfl

lemma poolStep_firstError {ε α : Type} (f : ℕ → Except ε α) (n : ℕ) (s : Pool ε α) (w : ℕ) :
    (poolStep f n s w).1.firstError
      = combineFE s.firstError (firstFailErr (poolStep f n s w).2) := by
  unfold poolStep
  split
  · split
    · dsimp only
      cases s.firstError <;> simp [combineFE, firstFailErr]
    · split
      · dsimp only
        cases s.firstError <;> simp [combineFE, firstFailErr]
      · dsimp only
        cases s.firstError <;> simp [combineFE, firstFailErr]
  · split
    · dsimp only
      cases s.firstError <;> simp [combineFE, firstFailErr]
    · split
      · rename_i hfe
        dsimp only
        have h0 : s.firstError = none := by
          simpa [Option.isNone_iff_eq_none] using hfe
        rw [h0]
        simp [combineFE, firstFailErr]
      · rename_i hfe
        dsimp only
        obtain ⟨e', he'⟩ : ∃ e', s.firstError = some e' := by
          cases hse : s.firstError with
          | none => rw [hse] at hfe; simp at hfe
          | some e' => exact ⟨e', rfl⟩
        rw [he']
        simp [combineFE, firstFailErr]
  · cases s.firstError <;> simp [combineFE, firstFailErr]
  · cases s.firstError <;> simp [combineFE, firstFailErr]

lemma poolRun_firstError {ε α : Type} (f : ℕ → Except ε α) (n : ℕ) :
    ∀ (sched : List ℕ) (s : Pool ε α),
      (poolRun f n sched s).1.firstError
        = combineFE s.firstError (firstFailErr (poolRun f n sched s).2) := by
  intro sched
  induction sched with
  | nil =>
    intro s
    rw [poolRun]
    dsimp only
    cases hse : s.firstError <;> simp [firstFailErr, combineFE, hse]
  | cons w ws ih =>
    intro s
    rw [poolRun]
    dsimp only
    rw [ih, firstFailErr_append, poolStep_firstError]
    cases hse : s.firstError <;> cases hff : firstFailErr (poolStep f n s w).2 <;>
      simp [combineFE, hse, hff]

lemma poolStep_abortInv {ε α : Type} (f : ℕ → Except ε α) (n : ℕ) (s : Pool ε α) (w : ℕ)
    (h : s.firstError.isSome = true → s.aborted = true) :
    (poolStep f n s w).1.firstError.isSome = true → (poolStep f n s w).1.aborted = true := by
  unfold poolStep
  split
  · split
    · dsimp only; exact h
    · split
      · dsimp only; exact h
      · dsimp only; exact h
  · split
    · dsimp only; exact h
    · split
      · dsimp only; intro; rfl
      · dsimp only; exact h
  · exact h
  · exact h

lemma poolStep_aborted {ε α : Type} (f : ℕ → Except ε α) (n : ℕ) (s : Pool ε α) (w : ℕ)
    (h : s.aborted = true) :
    (poolStep f n s w).1.aborted = true ∧ ∀ k, PEvent.take k ∉ (poolStep f n s w).2 := by
  unfold poolStep
  split
  · rw [if_pos h]
    exact ⟨h, by simp⟩
  · split
    · exact ⟨h, by simp⟩
    · split
      · exact ⟨rfl, by simp⟩
      · exact ⟨h, by simp⟩
  · exact ⟨h, by simp⟩
  · exact ⟨h, by simp⟩

lemma poolStep_fail_aborted {ε α : Type} (f : ℕ → Except ε α) (n : ℕ) (s : Pool ε α) (w : ℕ)
    (i : ℕ) (e : ε) (hai : s.firstError.isSome = true → s.aborted = true)
    (h : PEvent.fail i e ∈ (poolStep f n s w).2) :
    (poolStep f n s w).1.aborted = true := by
  revert h
  unfold poolStep
  split
  · split
    · intro h; simp at h
    · split
      · intro h; simp at h
      · intro h; simp at h
  · split
    · intro h; simp at h
    · split
      · intro _; rfl
      · rename_i hcond
        intro _
        dsimp only
        apply hai
        cases hse : s.firstError with
        | none => rw [hse] at hcond; simp at hcond
        | some e2 => simp [hse]
  · intro h; simp at h
  · intro h; simp at h

lemma poolRun_aborted_no_take {ε α : Type} (f : ℕ → Except ε α) (n : ℕ) :
    ∀ (sched : List ℕ) (s : Pool ε α), s.aborted = true →
      ∀ ev ∈ (poolRun f n sched s).2, ∀ j, ev ≠ PEvent.take j := by
  intro sched
  induction sched with
  | nil =>
    intro s _ ev hev
    simp [poolRun] at hev
  | cons w ws ih =>
    intro s h ev hev j
    rw [poolRun] at hev
    dsimp only at hev
    rcases List.mem_append.1 hev with h1 | h1
    · intro hc
      subst hc
      exact (poolStep_aborted f n s w h).2 j h1
    · exact ih _ (poolStep_aborted f n s w h).1 ev h1 j

/-- After any `fail` event in the trace, no worker claims a fresh index:
the local abort raised by the first failing chunk stops every sibling at
its next loop-top check. -/
lemma poolRun_no_take_after_fail {ε α : Type} (f : ℕ → Except ε α) (n : ℕ) :
    ∀ (sched : List ℕ) (s : Pool ε α),
      (s.firstError.isSome = true → s.aborted = true) →
      ∀ pre post i e, (poolRun f n sched s).2 = pre ++ PEvent.fail i e :: post →
        ∀ ev ∈ post, ∀ j, ev ≠ PEvent.take j := by
  intro sched
  induction sched with
  | nil =>
    intro s _ pre post i e htr
    rw [poolRun] at htr
    simp at htr
  | cons w ws ih =>
    intro s hai pre post i e htr
    rw [poolRun] at htr
    dsimp only at htr
    have hai' := poolStep_abortInv f n s w hai
    rcases poolStep_events f n s w with hev | ⟨k, hev⟩ | ⟨k, hev⟩ | ⟨k, e', hev⟩
    · rw [hev, List.nil_append] at htr
      exact ih _ hai' pre post i e htr
    · rw [hev] at htr
      cases pre with
      | nil =>
        simp only [List.singleton_append, List.nil_append] at htr
        injection htr with h1 h2
        simp at h1
      | cons p pre' =>
        simp only [List.singleton_append, List.cons_append] at htr
        injection htr with h1 h2
        exact ih _ hai' pre' post i e h2
    · rw [hev] at htr
      cases pre with
      | nil =>
        simp only [List.singleton_append, List.nil_append] at htr
        injection htr with h1 h2
        simp at h1
      | cons p pre' =>
        simp only [List.singleton_append, List.cons_append] at htr
        injection htr with h1 h2
        exact ih _ hai' pre' post i e h2
    · rw [hev] at htr
      cases pre with
      | nil =>
        simp only [List.singleton_append, List.nil_append] at htr
        injection htr with h1 h2
        have habort : (poolStep f n s w).1.aborted = true :=
          poolStep_fail_aborted f n s w k e' hai (by rw [hev]; exact List.mem_cons_self _ _)
        intro ev hev' j
        rw [← h2] at hev'
        exact poolRun_aborted_no_take f n ws _ habort ev hev' j
      | cons p pre' =>
        simp only [List.singleton_append, List.cons_append] at htr
        injection htr with h1 h2
        exact ih _ hai' pre' post i e h2

/-- C7: if the pool trace contains a failure and that failure is the
first one, the call surfaces exactly that error, and no worker starts a
fresh chunk after the failure. -/
theorem c7_first_failure_aborts_and_surfaces {ε α : Type} (f : ℕ → Except ε α)
    (c n : ℕ) (sched : List ℕ) (pre post : List (PEvent ε)) (i : ℕ) (e : ε)
    (htr : (mapWithConcurrencyModel f c n sched).2 = pre ++ PEvent.fail i e :: post)
    (hpre : ∀ j e', PEvent.fail j e' ∉ pre) :
    (mapWithConcurrencyModel f c n sched).1 = Except.error e ∧
    ∀ ev ∈ post, ∀ j, ev ≠ PEvent.take j := by
  by_cases hn : n = 0
  · subst hn
    rw [mapWithConcurrencyModel] at htr
    simp at htr
  · rw [mapWithConcurrencyModel, if_neg hn] at htr
    dsimp only at htr
    constructor
    · have hfe := poolRun_firstError f n sched (initPool ε α (max 1 (min c n)) n)
      rw [htr, firstFailErr_decomp pre post i e hpre] at hfe
      rw [show (initPool ε α (max 1 (min c n)) n).firstError = none from rfl] at hfe
      rw [mapWithConcurrencyModel, if_neg hn]
      dsimp only
      rw [poolOutcome, hfe]
      simp [combineFE]
    · have h0 : (initPool ε α (max 1 (min c n)) n).firstError.isSome = true →
          (initPool ε α (max 1 (min c n)) n).aborted = true := by
        intro hc
        simp [initPool] at hc
      exact poolRun_no_take_after_fail f n sched _ h0 pre post i e htr

/-- C7 witness: three chunks on two workers; chunk 1 fails after chunk 0
completed and chunk 2 was claimed; the in-flight chunk 2 may still
complete, but nothing new is claimed and the first error surfaces. -/
theorem c7_first_failure_witness :
    ((mapWithConcurrencyModel
        (fun i => if i = 1 then Except.error ("boom") else Except.ok ("t"))
        2 3 [0, 1, 0, 0, 1, 0, 1]).2
      = [PEvent.take 0, PEvent.take 1, PEvent.done 0, PEvent.take 2,
         PEvent.fail 1 ("boom"), PEvent.done 2]) ∧
    ((mapWithConcurrencyModel
        (fun i => if i = 1 then Except.error ("boom") else Except.ok ("t"))
        2 3 [0, 1, 0, 0, 1, 0, 1]).1 = Except.error ("boom") ∧
      ∀ ev ∈ [PEvent.done 2], ∀ j, ev ≠ PEvent.take (ε := String) j) :=
  ⟨by decide,
   c7_first_failure_aborts_and_surfaces
     (fun i => if i = 1 then Except.error ("boom") else Except.ok ("t")) 2 3
     [0, 1, 0, 0, 1, 0, 1]
     [PEvent.take 0, PEvent.take 1, PEvent.done 0, PEvent.take 2] [PEvent.done 2] 1 ("boom")
     (by decide) (by intro j e' hmem; simp at hmem)⟩

lemma dropWhile_head_not {α : Type} (p : α → Bool) :
    ∀ (l : List α) (x : α) (t : List α), l.dropWhile p = x :: t → p x = false := by
  intro l
  induction l with
  | nil => intro x t h; simp [List.dropWhile] at h
  | cons a rest ih =>
    intro x t h
    rw [List.dropWhile_cons] at h
    by_cases hpa : p a
    · rw [if_pos hpa] at h
      exact ih x t h
    · rw [if_neg hpa] at h
      injection h with h1 h2
      subst h1
      simpa using hpa

lemma dropWhile_idem {α : Type} (p : α → Bool) (l : List α) :
    (l.dropWhile p).dropWhile p = l.dropWhile p := by
  cases h : l.dropWhile p with
  | nil => rfl
  | cons x t =>
    rw [List.dropWhile_cons, if_neg (by rw [dropWhile_head_not p l x t h]; simp)]

lemma trimChars_head_not (cs : List Char) :
    ((cs.dropWhile isJsWhitespace).reverse.dropWhile isJsWhitespace).reverse = [] ∨
    ∃ h t, ((cs.dropWhile isJsWhitespace).reverse.dropWhile isJsWhitespace).reverse = h :: t
      ∧ isJsWhitespace h = false := by
  cases hu : cs.dropWhile isJsWhitespace with
  | nil => left; simp
  | cons h t =>
    have hh : isJsWhitespace h = false := dropWhile_head_not _ cs h t hu
    right
    rw [List.reverse_cons, List.dropWhile_append]
    by_cases he : (t.reverse.dropWhile isJsWhitespace).isEmpty
    · rw [if_pos he]
      refine ⟨h, [], ?_, hh⟩
      simp [List.dropWhile, hh]
    · rw [if_neg he]
      refine ⟨h, (t.reverse.dropWhile isJsWhitespace).reverse, ?_, hh⟩
      simp

lemma jsTrim_idem (s : String) : jsTrim (jsTrim s) = jsTrim s := by
  rw [jsTrim, jsTrim]
  show String.mk
      (((((s.data.dropWhile isJsWhitespace).reverse.dropWhile
          isJsWhitespace).reverse).dropWhile isJsWhitespace).reverse.dropWhile
        isJsWhitespace).reverse
    = String.mk ((s.data.dropWhile isJsWhitespace).reverse.dropWhile isJsWhitespace).reverse
  have h1 : (((s.data.dropWhile isJsWhitespace).reverse.dropWhile
      isJsWhitespace).reverse).dropWhile isJsWhitespace
        = ((s.data.dropWhile isJsWhitespace).reverse.dropWhile isJsWhitespace).reverse := by
    rcases trimChars_head_not s.data with h0 | ⟨h, t, hht, hws⟩
    · rw [h0]
      rfl
    · rw [hht, List.dropWhile_cons, if_neg (by rw [hws]; simp)]
  rw [h1, List.reverse_reverse,
    dropWhile_idem isJsWhitespace (s.data.dropWhile isJsWhitespace).reverse]

lemma pushLine_inv (m : ℕ) (line : String) (st : List String × String)
    (h : ∀ c ∈ st.1, jsTrim c = c) :
    ∀ c ∈ (pushLine m st line).1, jsTrim c = c := by
  intro c hc
  rw [pushLine] at hc
  dsimp only at hc
  split at hc
  · dsimp only at hc
    rcases List.mem_append.1 hc with h1 | h1
    · exact h c h1
    · simp only [List.mem_singleton] at h1
      subst h1
      exact jsTrim_idem _
  · exact h c hc

lemma foldl_pushLine_inv (m : ℕ) :
    ∀ (lines : List String) (st : List String × String), (∀ c ∈ st.1, jsTrim c = c) →
      ∀ c ∈ (lines.foldl (pushLine m) st).1, jsTrim c = c := by
  intro lines
  induction lines with
  | nil => intro st h; exact h
  | cons l rest ih =>
    intro st h
    rw [List.foldl_cons]
    exact ih _ (pushLine_inv m l st h)

lemma pushPara_inv (m : ℕ) (para : String) (st : List String × String)
    (h : ∀ c ∈ st.1, jsTrim c = c) :
    ∀ c ∈ (pushPara m st para).1, jsTrim c = c := by
  have hfl : ∀ c ∈ (if m < st.2.length + para.length ∧ 0 < st.2.length
      then (st.1 ++ [jsTrim st.2], ("" : String)) else st).1, jsTrim c = c := by
    intro c hc
    split at hc
    · dsimp only at hc
      rcases List.mem_append.1 hc with h1 | h1
      · exact h c h1
      · simp only [List.mem_singleton] at h1
        subst h1
        exact jsTrim_idem _
    · exact h c hc
  intro c hc
  rw [pushPara] at hc
  dsimp only at hc
  split at hc
  · exact foldl_pushLine_inv m _ _ hfl c hc
  · exact hfl c hc

lemma splitTextIntoChunks_trimmed (text : String) (m : ℕ) :
    ∀ c ∈ splitTextIntoChunks text m, jsTrim c = c := by
  have hfold : ∀ (ps : List String) (st : List String × String),
      (∀ c ∈ st.1, jsTrim c = c) →
      ∀ c ∈ (ps.foldl (pushPara m) st).1, jsTrim c = c := by
    intro ps
    induction ps with
    | nil => intro st h; exact h
    | cons p rest ih =>
      intro st h
      rw [List.foldl_cons]
      exact ih _ (pushPara_inv m p st h)
  intro c hc
  rw [splitTextIntoChunks] at hc
  split at hc
  · rcases List.mem_append.1 hc with h1 | h1
    · exact hfold _ _ (by simp) c h1
    · simp only [List.mem_singleton] at h1
      subst h1
      exact jsTrim_idem _
  · exact hfold _ _ (by simp) c hc

lemma genStream_cases (streamNet : String → ℚ → Except JsErr String) (prompt : String)
    (t : ℚ) (hsa : ∀ e, streamNet prompt t = Except.error e → e.aborted = false) :
    (∃ s, generateContentStreamM streamNet prompt t false = (Except.ok s, ["stream"])) ∨
    (∃ e, generateContentStreamM streamNet prompt t false = (Except.error e, ["stream"])
      ∧ e.aborted = false) := by
  rw [generateContentStreamM, if_neg (by simp)]
  cases hs : streamNet prompt t with
  | error e => right; exact ⟨e, rfl, hsa e hs⟩
  | ok r =>
    by_cases hr : r = ""
    · right
      dsimp only
      rw [if_pos hr]
      exact ⟨⟨false, "streaming response contained no text."⟩, rfl, rfl⟩
    · left
      dsimp only
      rw [if_neg hr]
      exact ⟨r, rfl⟩

lemma gcAttempts_cases (net : String → ℚ → ℕ → Except JsErr String) (prompt : String)
    (t : ℚ) (hga : ∀ a e, net prompt t a = Except.error e → e.aborted = false) :
    ∀ (fuel attempt : ℕ) (last : Option JsErr),
      (∃ s tr, gcAttempts net prompt t false attempt fuel last = (Except.ok s, tr)) ∨
      (∃ e tr, gcAttempts net prompt t false attempt fuel last = (Except.error e, tr)
        ∧ e.aborted = false) := by
  intro fuel
  induction fuel with
  | zero =>
    intro attempt last
    right
    exact ⟨_, _, rfl, rfl⟩
  | succ fuel ih =>
    intro attempt last
    simp only [gcAttempts]
    rw [if_neg (by simp)]
    cases hn : net prompt t attempt with
    | ok r => left; exact ⟨r, _, rfl⟩
    | error e =>
      dsimp only
      rw [if_neg (by rw [hga attempt e hn]; simp)]
      rcases ih (attempt + 1) (some e) with ⟨s, tr, hgc⟩ | ⟨e2, tr, hgc, hab⟩
      · left
        exact ⟨s, "generate" :: tr, by rw [hgc]⟩
      · right
        exact ⟨e2, "generate" :: tr, by rw [hgc], hab⟩

lemma chunkTier_cases (streamNet : String → ℚ → Except JsErr String)
    (genNet : String → ℚ → ℕ → Except JsErr String) (prompt fb : String)
    (hsa : ∀ e, streamNet prompt (1/10) = Except.error e → e.aborted = false)
    (hga : ∀ a e, genNet prompt (1/10) a = Except.error e → e.aborted = false) :
    ∃ t tr, chunkTierResult streamNet genNet prompt fb false = (Except.ok t, tr) := by
  unfold chunkTierResult
  rcases genStream_cases streamNet prompt (1/10) hsa with ⟨s, hs⟩ | ⟨e, hs, hab⟩
  · rw [hs]
    exact ⟨s, _, rfl⟩
  · rw [hs]
    dsimp only
    rw [if_neg (by rw [hab]; simp)]
    rcases gcAttempts_cases genNet prompt (1/10) hga 3 1 none with ⟨s, tr, hgc⟩
      | ⟨e2, tr, hgc, hab2⟩
    · rw [generateContentM, hgc]
      exact ⟨s, _, rfl⟩
    · rw [generateContentM, hgc]
      dsimp only
      rw [if_neg (by rw [hab2]; simp)]
      exact ⟨fb, _, rfl⟩

lemma gcAttempts_all_error_gen (net : String → ℚ → ℕ → Except JsErr String)
    (prompt : String) (t : ℚ)
    (hcg : ∀ a, ∃ e, net prompt t a = Except.error e ∧ e.aborted = false) :
    ∀ (fuel attempt : ℕ) (last : Option JsErr),
      ∃ e tr, gcAttempts net prompt t false attempt fuel last = (Except.error e, tr)
        ∧ e.aborted = false := by
  intro fuel
  induction fuel with
  | zero =>
    intro attempt last
    exact ⟨_, _, rfl, rfl⟩
  | succ fuel ih =>
    intro attempt last
    simp only [gcAttempts]
    rw [if_neg (by simp)]
    obtain ⟨e, he, ha⟩ := hcg attempt
    rw [he]
    dsimp only
    rw [if_neg (by rw [ha]; simp)]
    obtain ⟨e2, tr2, hgc, hab2⟩ := ih (attempt + 1) (some e)
    exact ⟨e2, "generate" :: tr2, by rw [hgc], hab2⟩

lemma chunkTier_fullfail (streamNet : String → ℚ → Except JsErr String)
    (genNet : String → ℚ → ℕ → Except JsErr String) (prompt fb : String)
    (hcs : ∃ e, streamNet prompt (1/10) = Except.error e ∧ e.aborted = false)
    (hcg : ∀ a, ∃ e, genNet prompt (1/10) a = Except.error e ∧ e.aborted = false) :
    ∃ tr, chunkTierResult streamNet genNet prompt fb false = (Except.ok fb, tr) := by
  obtain ⟨e, hse, hsab⟩ := hcs
  have hstream : generateContentStreamM streamNet prompt (1/10) false
      = (Except.error e, ["stream"]) := by
    rw [generateContentStreamM, if_neg (by simp), hse]
  unfold chunkTierResult
  rw [hstream]
  dsimp only
  rw [if_neg (by rw [hsab]; simp)]
  obtain ⟨e2, tr2, hgc, hab2⟩ := gcAttempts_all_error_gen genNet prompt (1/10) hcg 3 1 none
  rw [generateContentM, hgc]
  dsimp only
  rw [if_neg (by rw [hab2]; simp)]
  exact ⟨_, rfl⟩

lemma chunkTexts_length (streamNet : String → ℚ → Except JsErr String)
    (genNet : String → ℚ → ℕ → Except JsErr String) (total : ℕ) :
    ∀ (cs : List String) (i : ℕ),
      (chunkTexts streamNet genNet total cs i).length = cs.length := by
  intro cs
  induction cs with
  | nil => intro i; rfl
  | cons c rest ih =>
    intro i
    simp only [chunkTexts, List.length_cons, ih]

lemma chunkTexts_getD (streamNet : String → ℚ → Except JsErr String)
    (genNet : String → ℚ → ℕ → Except JsErr String) (total : ℕ) :
    ∀ (cs : List String) (i k : ℕ), k < cs.length →
      (chunkTexts streamNet genNet total cs i).getD k ""
        = chunkTierText streamNet genNet
            (buildFormatPrompt (cs.getD k "") (i + k + 1) total) (cs.getD k "") := by
  intro cs
  induction cs with
  | nil => intro i k h; simp at h
  | cons c rest ih =>
    intro i k h
    cases k with
    | zero => simp [chunkTexts]
    | succ k' =>
      simp only [chunkTexts, List.getD_cons_succ]
      rw [ih (i + 1) k' (by simpa using h)]
      have harith : i + 1 + k' + 1 = i + (k' + 1) + 1 := by omega
      rw [harith]

lemma formatChunksGo_ok (streamNet : String → ℚ → Except JsErr String)
    (genNet : String → ℚ → ℕ → Except JsErr String) (total : ℕ)
    (hsa : ∀ p e, streamNet p (1/10) = Except.error e → e.aborted = false)
    (hga : ∀ p a e, genNet p (1/10) a = Except.error e → e.aborted = false) :
    ∀ (cs : List String) (i : ℕ), ∃ tr, formatChunksGo streamNet genNet total false cs i
      = (Except.ok (chunkTexts streamNet genNet total cs i), tr) := by
  intro cs
  induction cs with
  | nil => intro i; exact ⟨[], rfl⟩
  | cons c rest ih =>
    intro i
    obtain ⟨t, tr, htier⟩ := chunkTier_cases streamNet genNet
      (buildFormatPrompt c (i + 1) total) c (hsa _) (hga _)
    obtain ⟨tr2, hih⟩ := ih (i + 1)
    refine ⟨tr ++ tr2, ?_⟩
    simp only [formatChunksGo]
    rw [if_neg (by simp), htier]
    dsimp only
    rw [hih]
    dsimp only
    have h1 : (chunkTierResult streamNet genNet (buildFormatPrompt c (i + 1) total) c false).1
        = Except.ok t := by rw [htier]
    have h2 : chunkTierText streamNet genNet (buildFormatPrompt c (i + 1) total) c
        = jsTrim t := by rw [chunkTierText, h1]
    simp only [chunkTexts, h2]

/-- C8: when every attempt to reformat chunk `k` fails with non-abort
errors (the streaming call and all three fallback attempts), the editing
entry point still returns normally, the final document is the combined
summary and the ordered chunk results, and position `k` holds the
original chunk text unchanged. -/
theorem c8_stage2_degradation (streamNet : String → ℚ → Except JsErr String)
    (genNet : String → ℚ → ℕ → Except JsErr String) (text : String)
    (settings : EditorSettingsM) (override context : Option String) (S : String) (k : ℕ)
    (hkey : ¬ settings.apiKey = "")
    (hsum : streamNet (prepareSummaryPrompt (resolveSystemPrompt settings override)
        settings.userPrompt (extractRawTranscript text) context) (1/5) = Except.ok S)
    (hSne : ¬ S = "")
    (hsa : ∀ p e, streamNet p (1/10) = Except.error e → e.aborted = false)
    (hga : ∀ p a e, genNet p (1/10) a = Except.error e → e.aborted = false)
    (hk : k < (stage2Chunks text).length)
    (hcs : ∃ e, streamNet (buildFormatPrompt ((stage2Chunks text).getD k "")
        (k + 1) (stage2Chunks text).length) (1/10) = Except.error e ∧ e.aborted = false)
    (hcg : ∀ a, ∃ e, genNet (buildFormatPrompt ((stage2Chunks text).getD k "")
        (k + 1) (stage2Chunks text).length) (1/10) a = Except.error e ∧ e.aborted = false) :
    (editWithTwoStageStreamingM streamNet genNet text settings override context false).1
        = Except.ok (combineParts S
            (jsTrim (String.intercalate ("\n\n") (stage2Texts streamNet genNet text)))) ∧
    (stage2Texts streamNet genNet text).getD k "" = (stage2Chunks text).getD k "" ∧
    (stage2Texts streamNet genNet text).length = (stage2Chunks text).length := by
  have hsumpair : generateContentStreamM streamNet
      (prepareSummaryPrompt (resolveSystemPrompt settings override)
        settings.userPrompt (extractRawTranscript text) context) (1/5) false
        = (Except.ok S, ["stream"]) := by
    rw [generateContentStreamM, if_neg (by simp), hsum]
    dsimp only
    rw [if_neg hSne]
  obtain ⟨tr, hfmt⟩ := formatChunksGo_ok streamNet genNet (stage2Chunks text).length hsa hga
    (stage2Chunks text) 0
  have hts : formatTranscriptStreamingM streamNet genNet (extractRawTranscript text) false
      = (Except.ok (jsTrim (String.intercalate ("\n\n")
          (stage2Texts streamNet genNet text))), tr) := by
    rw [formatTranscriptStreamingM]
    rw [show splitTextIntoChunks (extractRawTranscript text) 8000 = stage2Chunks text from rfl]
    rw [hfmt]
    rfl
  have hmain : (editWithTwoStageStreamingM streamNet genNet text settings override
      context false).1
        = Except.ok (combineParts S
            (jsTrim (String.intercalate ("\n\n") (stage2Texts streamNet genNet text)))) := by
    rw [editWithTwoStageStreamingM, if_neg hkey, if_neg (by simp), hsumpair]
    dsimp only
    rw [if_neg (by simp), hts]
  refine ⟨hmain, ?_, chunkTexts_length streamNet genNet _ _ _⟩
  obtain ⟨tr3, hfull⟩ := chunkTier_fullfail streamNet genNet
    (buildFormatPrompt ((stage2Chunks text).getD k "") (k + 1) (stage2Chunks text).length)
    ((stage2Chunks text).getD k "") hcs hcg
  have h1 : (chunkTierResult streamNet genNet
      (buildFormatPrompt ((stage2Chunks text).getD k "") (k + 1) (stage2Chunks text).length)
      ((stage2Chunks text).getD k "") false).1
        = Except.ok ((stage2Chunks text).getD k "") := by rw [hfull]
  have h2 : chunkTierText streamNet genNet
      (buildFormatPrompt ((stage2Chunks text).getD k "") (k + 1) (stage2Chunks text).length)
      ((stage2Chunks text).getD k "")
        = jsTrim ((stage2Chunks text).getD k "") := by rw [chunkTierText, h1]
  have h3 : jsTrim ((stage2Chunks text).getD k "") = (stage2Chunks text).getD k "" := by
    apply splitTextIntoChunks_trimmed (extractRawTranscript text) 8000
    rw [List.getD_eq_getElem _ _ hk]
    exact List.getElem_mem _
  rw [stage2Texts, chunkTexts_getD streamNet genNet _ _ _ _ hk]
  simp only [Nat.zero_add]
  rw [h2, h3]

lemma splitParagraphsGo_no_nl : ∀ (cs acc : List Char), (∀ c ∈ cs, ¬ c = '\n') →
    splitParagraphsGo acc cs = [String.mk (acc.reverse ++ cs)] := by
  intro cs
  induction cs with
  | nil =>
    intro acc h
    rw [splitParagraphsGo.eq_def]
    simp
  | cons c rest ih =>
    intro acc h
    rw [splitParagraphsGo.eq_def]
    split
    · rename_i heq
      exact absurd heq (by simp)
    · rename_i heq
      have hc : c = '\n' := by
        have := congrArg (fun l => l.headD ' ') heq
        simpa using this
      exact absurd hc (h c (by simp))
    · rename_i a1 a2 a3 c2 rest2 hnc heq
      injection heq with h1 h2
      subst h1
      subst h2
      rw [ih (c :: a1) (fun x hx => h x (by simp [hx]))]
      simp

lemma c8chunks_eval : stage2Chunks ("Speaker 1: hi") = ["Speaker 1: hi"] := by
  have hx : extractRawTranscript ("Speaker 1: hi") = "Speaker 1: hi" := by decide
  rw [stage2Chunks, hx, splitTextIntoChunks]
  rw [splitParagraphsGo_no_nl _ _ (by decide)]
  decide

/-- C8 witness: with one chunk whose every format attempt fails
(non-abort), editing still succeeds and keeps the raw chunk. -/
theorem c8_stage2_degradation_witness :
    (editWithTwoStageStreamingM c8wStream c8wGen ("Speaker 1: hi") c8wSettings none none
        false).1
      = Except.ok (combineParts ("SUM")
          (jsTrim (String.intercalate ("\n\n")
            (stage2Texts c8wStream c8wGen ("Speaker 1: hi"))))) ∧
    (stage2Texts c8wStream c8wGen ("Speaker 1: hi")).getD 0 ""
      = (stage2Chunks ("Speaker 1: hi")).getD 0 "" ∧
    (stage2Texts c8wStream c8wGen ("Speaker 1: hi")).length
      = (stage2Chunks ("Speaker 1: hi")).length :=
  c8_stage2_degradation c8wStream c8wGen ("Speaker 1: hi") c8wSettings none none ("SUM") 0
    (by decide)
    (by rfl)
    (by decide)
    (by
      intro p e h
      unfold c8wStream at h
      revert h
      cases dropPrefixChars ("You are").data p.data <;> intro h
      · simp at h
      · injection h with h1
        rw [← h1])
    (by
      intro p a e h
      unfold c8wGen at h
      injection h with h1
      rw [← h1])
    (by rw [c8chunks_eval]; decide)
    (by
      rw [c8chunks_eval]
      exact ⟨⟨false, "s"⟩, by rfl, rfl⟩)
    (by
      intro a
      exact ⟨⟨false, "g"⟩, rfl, rfl⟩)

/-- C9: with a non-empty credential, calling either pipeline entry
point with an already-aborted signal rejects immediately with the
cancellation error and an empty call trace, so no network call is
attempted. -/
theorem c9_aborted_signal_rejects_pre_network
    (f : ℕ → Except JsErr String) (blob : BlobM) (tsettings : TrSettingsM)
    (pre preG : List BlobM) (sched : List ℕ)
    (streamNet : String → ℚ → Except JsErr String)
    (genNet : String → ℚ → ℕ → Except JsErr String) (text : String)
    (esettings : EditorSettingsM) (override context : Option String)
    (hkeyT : ¬ tsettings.apiKey = "") (hkeyE : ¬ esettings.apiKey = "") :
    transcribeM f blob tsettings true pre preG sched = (Except.error abortErr, []) ∧
    editWithTwoStageStreamingM streamNet genNet text esettings override context true
      = (Except.error abortErr, []) := by
  constructor
  · rw [transcribeM, if_neg hkeyT, if_pos rfl]
  · rw [editWithTwoStageStreamingM, if_neg hkeyE, if_pos rfl]

/-- C9 witness. -/
theorem c9_aborted_signal_witness :
    transcribeM (fun _ => Except.ok ("t")) ⟨0, ""⟩ ⟨"openai", "k", false⟩ true [] [] []
        = (Except.error abortErr, []) ∧
    editWithTwoStageStreamingM (fun _ _ => Except.ok ("s")) (fun _ _ _ => Except.ok ("g"))
        ("x") ⟨"k", [], "", ""⟩ none none true = (Except.error abortErr, []) :=
  c9_aborted_signal_rejects_pre_network (fun _ => Except.ok ("t")) ⟨0, ""⟩
    ⟨"openai", "k", false⟩ [] [] [] (fun _ _ => Except.ok ("s"))
    (fun _ _ _ => Except.ok ("g")) ("x") ⟨"k", [], "", ""⟩ none none
    (by decide) (by decide)

/-- C10: when preprocessing yields an empty chunk list, both provider
paths return the empty string with an empty call trace — no per-chunk
network transcription or upload call and no error (the Gemini path
reaches its preprocess result when the quality preference forces WAV
preprocessing). -/
theorem c10_empty_chunk_list_returns_empty
    (f : ℕ → Except JsErr String) (blob : BlobM) (sO sG : TrSettingsM)
    (pre preG : List BlobM) (sched : List ℕ)
    (hkO : ¬ sO.apiKey = "") (hpO : sO.provider = "openai")
    (hkG : ¬ sG.apiKey = "") (hpG : sG.provider = "gemini")
    (hq : sG.preferQualityWav = true) :
    transcribeM f blob sO false [] preG sched = (Except.ok (""), []) ∧
    transcribeM f blob sG false pre [] sched = (Except.ok (""), []) := by
  constructor
  · rw [transcribeM, if_neg hkO, if_neg (by simp), if_pos hpO]
    rfl
  · rw [transcribeM, if_neg hkG, if_neg (by simp), if_neg (by rw [hpG]; decide),
      if_pos hpG]
    simp [transcribeWithGeminiM, hq]

/-- C10 witness. -/
theorem c10_empty_chunk_list_witness :
    transcribeM (fun _ => Except.ok ("t")) ⟨0, ""⟩ ⟨"openai", "k", false⟩ false [] [] []
        = (Except.ok (""), []) ∧
    transcribeM (fun _ => Except.ok ("t")) ⟨0, ""⟩ ⟨"gemini", "k", true⟩ false [] [] []
        = (Except.ok (""), []) :=
  c10_empty_chunk_list_returns_empty (fun _ => Except.ok ("t")) ⟨0, ""⟩
    ⟨"openai", "k", false⟩ ⟨"gemini", "k", true⟩ [] [] []
    (by decide) (by decide) (by decide) (by decide) (by decide)
